import Mathlib

/-!
# Verification of the wampire WAMP router core

A shallow embedding, in Lean 4, of the core data structures and operations of
the wampire WAMP v2 router (Rust), together with theorems settling the frozen
claims about its specification.

Embedded components (each definition mirrors the named Rust source item):
* the wire codec for the 20-variant `Message` union
  (`src/messages/mod.rs`: `serialize_with_args!`, `MessageVisitor`),
* the subscription pattern trie
  (`src/router/pubsub/patterns.rs`: `SubscriptionPatternNode`, `MatchIterator`),
* the registration pattern trie
  (`src/router/rpc/patterns.rs`: `RegistrationPatternNode`, `ProcdureCollection`),
* the realm-level handlers
  (`src/router/pubsub/mod.rs`, `src/router/rpc/mod.rs`, `src/router/mod.rs`).

Machine integers: all IDs are `u64` in the source; the operations modelled here
never wrap (IDs are only generated, stored, compared), so they are embedded as
`Nat`.  Randomly generated IDs (`random_id`) are modelled by threading a
freshness counter: the claims under study depend only on which IDs coincide,
never on their numeric values.
-/

namespace Wampire

/-- `ID` (`src/lib.rs`): `pub type ID = u64;`. -/
abbrev ID := Nat

/-- `MatchingPolicy` (`src/messages/types/mod.rs`).  The Rust variants are
`Prefix`, `Wildcard`, `Strict`; `Prefix` is rendered `pfx` here. -/
inductive MatchingPolicy where
  | pfx
  | wildcard
  | strict
  deriving DecidableEq, Repr

/-- `InvocationPolicy` (`src/messages/types/mod.rs`). -/
inductive InvocationPolicy where
  | single
  | roundRobin
  | random
  | first
  | last
  deriving DecidableEq, Repr

/-- `URI` (`src/messages/types/value.rs`): a wrapper around the uri string. -/
structure URI where
  uri : String
  deriving DecidableEq, Repr

/-- `Reason` (`src/messages/types/error.rs`). -/
inductive Reason where
  | invalidURI
  | noSuchProcedure
  | procedureAlreadyExists
  | noSuchRegistration
  | noSuchSubscription
  | invalidArgument
  | systemShutdown
  | closeRealm
  | goodbyeAndOut
  | notAuthorized
  | authorizationFailed
  | noSuchRealm
  | noSuchRole
  | cancelled
  | optionNotAllowed
  | noEligibleCallee
  | optionDisallowedDiscloseMe
  | networkFailure
  | normalClose
  | customReason (uri : URI)
  deriving DecidableEq, Repr

/-- `ErrorType` (`src/messages/types/error.rs`). -/
inductive ErrorType where
  | subscribe
  | unsubscribe
  | publish
  | register
  | unregister
  | invocation
  | call
  deriving DecidableEq, Repr

/-- `Reason::get_string` (`src/messages/types/error.rs`). -/
def Reason.getString : Reason → String
  | .invalidURI => "wamp.error.invalid_uri"
  | .noSuchProcedure => "wamp.error.no_such_procedure"
  | .procedureAlreadyExists => "wamp.error.procedure_already_exists"
  | .noSuchRegistration => "wamp.error.no_such_registration"
  | .noSuchSubscription => "wamp.error.no_such_subscription"
  | .invalidArgument => "wamp.error.invalid_argument"
  | .systemShutdown => "wamp.error.system_shutdown"
  | .closeRealm => "wamp.error.close_realm"
  | .goodbyeAndOut => "wamp.error.goodbye_and_out"
  | .notAuthorized => "wamp.error.not_authorized"
  | .authorizationFailed => "wamp.error.authorization_failed"
  | .noSuchRealm => "wamp.error.no_such_realm"
  | .noSuchRole => "wamp.error.no_such_role"
  | .cancelled => "wamp.error.cancelled"
  | .optionNotAllowed => "wamp.error.option_not_allowed"
  | .noEligibleCallee => "wamp.error.no_eligible_callee"
  | .optionDisallowedDiscloseMe => "wamp.error.option-disallowed.disclose_me"
  | .networkFailure => "wamp.error.network_failure"
  | .normalClose => "wamp.close.normal"
  | .customReason u => u.uri

/-- `ReasonVisitor::visit_str` (`src/messages/types/error.rs`): known reason
uris map to their variant, anything else becomes `CustomReason`. -/
def Reason.fromString (s : String) : Reason :=
  if s = "wamp.error.invalid_uri" then .invalidURI
  else if s = "wamp.error.no_such_procedure" then .noSuchProcedure
  else if s = "wamp.error.procedure_already_exists" then .procedureAlreadyExists
  else if s = "wamp.error.no_such_registration" then .noSuchRegistration
  else if s = "wamp.error.no_such_subscription" then .noSuchSubscription
  else if s = "wamp.error.invalid_argument" then .invalidArgument
  else if s = "wamp.error.system_shutdown" then .systemShutdown
  else if s = "wamp.error.close_realm" then .closeRealm
  else if s = "wamp.error.goodbye_and_out" then .goodbyeAndOut
  else if s = "wamp.error.not_authorized" then .notAuthorized
  else if s = "wamp.error.authorization_failed" then .authorizationFailed
  else if s = "wamp.error.no_such_realm" then .noSuchRealm
  else if s = "wamp.error.no_such_role" then .noSuchRole
  else if s = "wamp.error.cancelled" then .cancelled
  else if s = "wamp.error.option_not_allowed" then .optionNotAllowed
  else if s = "wamp.error.no_eligible_callee" then .noEligibleCallee
  else if s = "wamp.error.option-disallowed.disclose_me" then .optionDisallowedDiscloseMe
  else if s = "wamp.error.network_failure" then .networkFailure
  else if s = "wamp.close.normal" then .normalClose
  else .customReason ⟨s⟩

/-- `ErrorType` serialisation (`serialize` in `src/messages/types/error.rs`):
each error type is written as the numeric tag of the request it refers to. -/
def ErrorType.toTag : ErrorType → Nat
  | .subscribe => 32
  | .unsubscribe => 34
  | .publish => 16
  | .register => 64
  | .unregister => 66
  | .invocation => 68
  | .call => 48

/-- `ErrorTypeVisitor::visit_u64` (`src/messages/types/error.rs`). -/
def ErrorType.fromTag : Nat → Option ErrorType
  | 32 => some .subscribe
  | 34 => some .unsubscribe
  | 16 => some .publish
  | 64 => some .register
  | 66 => some .unregister
  | 68 => some .invocation
  | 48 => some .call
  | _ => none

/-- Rust `str::split('.')` (used by `subscribe_with`, `unsubscribe_with`,
`register_with`, `unregister_with`, `filter`, `get_registrant_for`):
splits at every dot, keeping empty segments, and yields `[""]` for the empty
string. -/
def splitDotAux : List Char → List Char → List String
  | [], acc => [String.mk acc.reverse]
  | c :: rest, acc =>
      if c = '.' then String.mk acc.reverse :: splitDotAux rest []
      else splitDotAux rest (c :: acc)

/-- Split a uri string at dots, Rust `split('.')` semantics. -/
def splitDots (s : String) : List String :=
  splitDotAux s.data []

theorem splitDots_empty : splitDots "" = [""] := by decide

theorem splitDots_example :
    splitDots "com.example.test" = ["com", "example", "test"] := by decide

theorem splitDots_leading_dot : splitDots ".a" = ["", "a"] := by decide

theorem splitDots_wildcard :
    splitDots "com.example..topic" = ["com", "example", "", "topic"] := by decide

end Wampire

namespace Wampire

/-! ## The serde data model

Both wire encodings (`wamp.2.json` via `serde_json` and `wamp.2.msgpack` via
`rmp_serde` with `StructMapWriter`) drive the very same `Serialize` /
`Deserialize` implementations in `src/messages/`, through the serde data
model: tuples/sequences, maps with string keys (struct-as-map), strings,
booleans, signed and unsigned 64-bit integers and doubles.  `WireVal` is that
shared data model; the byte-level rendering of a `WireVal` is the external
library layer and is not part of this repository. -/

/-- A value of the serde data model shared by the JSON and MsgPack paths. -/
inductive WireVal where
  | vuint (n : Nat)
  | vint (i : Int)
  | vfloat (f : Float)
  | vstr (s : String)
  | vbool (b : Bool)
  | varr (xs : List WireVal)
  | vmap (xs : List (String × WireVal))

/-- `Value` (`src/messages/types/value.rs`).  `Dict` keeps its entries as an
association list; the Rust `HashMap` has no observable order and none of the
codec operations depend on one. -/
inductive Value where
  | dict (d : List (String × Value))
  | integer (i : Int)
  | uinteger (u : Nat)
  | float (f : Float)
  | str (s : String)
  | list (l : List Value)
  | boolean (b : Bool)

/-- `Dict` (`src/messages/types/value.rs`): string-keyed map of `Value`. -/
abbrev Dict := List (String × Value)

/-- `List` of `Value`s (`src/messages/types/value.rs`). -/
abbrev ValList := List Value

mutual

/-- `impl Serialize for Value` (`src/messages/types/value.rs`). -/
def encodeValue : Value → WireVal
  | .dict d => .vmap (encodeDict d)
  | .integer i => .vint i
  | .uinteger u => .vuint u
  | .float f => .vfloat f
  | .str s => .vstr s
  | .list l => .varr (encodeList l)
  | .boolean b => .vbool b

/-- Element-wise serialisation of a `List` of values. -/
def encodeList : ValList → List WireVal
  | [] => []
  | v :: tl => encodeValue v :: encodeList tl

/-- Entry-wise serialisation of a `Dict`. -/
def encodeDict : Dict → List (String × WireVal)
  | [] => []
  | (k, v) :: tl => (k, encodeValue v) :: encodeDict tl

end

mutual

/-- `ValueVisitor` (`src/messages/types/value.rs`): self-describing
deserialisation.  `visit_u64` prefers `UnsignedInteger`, `visit_i64` gives
`Integer`, maps give `Dict`, sequences give `List`. -/
def decodeValue : WireVal → Value
  | .vuint n => .uinteger n
  | .vint i => .integer i
  | .vfloat f => .float f
  | .vstr s => .str s
  | .vbool b => .boolean b
  | .varr xs => .list (decodeValueList xs)
  | .vmap xs => .dict (decodeValueDict xs)

/-- `ValueVisitor::visit_seq`. -/
def decodeValueList : List WireVal → ValList
  | [] => []
  | w :: tl => decodeValue w :: decodeValueList tl

/-- `ValueVisitor::visit_map`. -/
def decodeValueDict : List (String × WireVal) → Dict
  | [] => []
  | (k, w) :: tl => (k, decodeValue w) :: decodeValueDict tl

end

mutual

theorem decode_encodeValue : ∀ v : Value, decodeValue (encodeValue v) = v
  | .dict d => by simp [encodeValue, decodeValue, decode_encodeDict d]
  | .integer _ => by simp [encodeValue, decodeValue]
  | .uinteger _ => by simp [encodeValue, decodeValue]
  | .float _ => by simp [encodeValue, decodeValue]
  | .str _ => by simp [encodeValue, decodeValue]
  | .list l => by simp [encodeValue, decodeValue, decode_encodeList l]
  | .boolean _ => by simp [encodeValue, decodeValue]

theorem decode_encodeList : ∀ l : ValList, decodeValueList (encodeList l) = l
  | [] => by simp [encodeList, decodeValueList]
  | v :: tl => by
      simp [encodeList, decodeValueList, decode_encodeValue v, decode_encodeList tl]

theorem decode_encodeDict : ∀ d : Dict, decodeValueDict (encodeDict d) = d
  | [] => by simp [encodeDict, decodeValueDict]
  | (k, v) :: tl => by
      simp [encodeDict, decodeValueDict, decode_encodeValue v, decode_encodeDict tl]

end

end Wampire

namespace Wampire

/-! ## Option and detail records (`src/messages/types/options.rs`, `roles.rs`)

Each record derives serde `Serialize`/`Deserialize`; on the wire it is a map
from field names to field values (JSON objects; MsgPack maps via
`StructMapWriter`), fields in declaration order, a field being omitted when its
`skip_serializing_if` predicate holds, and `default` reconstructing omitted
fields on the way back. -/

/-- `PublisherRole` / `CallerRole` / `CalleeRole` (`roles.rs`): an optional
free-form feature map `Option<HashMap<String, bool>>`. -/
structure BasicRole where
  features : Option (List (String × Bool))
  deriving DecidableEq, Repr

/-- `SubscriberFeatures` (`roles.rs`). -/
structure SubscriberFeatures where
  patternBasedSubscription : Bool
  deriving DecidableEq, Repr

/-- `SubscriberRole` (`roles.rs`). -/
structure SubscriberRole where
  features : Option SubscriberFeatures
  deriving DecidableEq, Repr

/-- `DealerFeatures` (`roles.rs`). -/
structure DealerFeatures where
  patternBasedRegistration : Bool
  deriving DecidableEq, Repr

/-- `DealerRole` (`roles.rs`). -/
structure DealerRole where
  features : Option DealerFeatures
  deriving DecidableEq, Repr

/-- `BrokerFeatures` (`roles.rs`). -/
structure BrokerFeatures where
  patternBasedSubscription : Bool
  deriving DecidableEq, Repr

/-- `BrokerRole` (`roles.rs`). -/
structure BrokerRole where
  features : Option BrokerFeatures
  deriving DecidableEq, Repr

/-- `ClientRoles` (`roles.rs`). -/
structure ClientRoles where
  publisher : BasicRole
  subscriber : SubscriberRole
  caller : BasicRole
  callee : BasicRole
  deriving DecidableEq, Repr

/-- `RouterRoles` (`roles.rs`). -/
structure RouterRoles where
  dealer : DealerRole
  broker : BrokerRole
  deriving DecidableEq, Repr

/-- `HelloDetails` (`options.rs`): optional `agent`, then `roles`. -/
structure HelloDetails where
  agent : Option String
  roles : ClientRoles
  deriving DecidableEq, Repr

/-- `WelcomeDetails` (`options.rs`). -/
structure WelcomeDetails where
  agent : Option String
  roles : RouterRoles
  deriving DecidableEq, Repr

/-- `ErrorDetails` (`options.rs`). -/
structure ErrorDetails where
  message : Option String
  deriving DecidableEq, Repr

/-- `SubscribeOptions` (`options.rs`): the `match` field, omitted when
strict. -/
structure SubscribeOptions where
  patternMatch : MatchingPolicy
  deriving DecidableEq, Repr

/-- `PublishOptions` (`options.rs`): `acknowledge`, omitted when false. -/
structure PublishOptions where
  acknowledge : Bool
  deriving DecidableEq, Repr

/-- `RegisterOptions` (`options.rs`): `match` (omitted when strict) then
`invoke` (omitted when single). -/
structure RegisterOptions where
  patternMatch : MatchingPolicy
  invocationPolicy : InvocationPolicy
  deriving DecidableEq, Repr

/-- `CallOptions` (`options.rs`): empty record. -/
structure CallOptions where
  deriving DecidableEq, Repr

/-- `YieldOptions` (`options.rs`): empty record. -/
structure YieldOptions where
  deriving DecidableEq, Repr

/-- `EventDetails` (`options.rs`): optional `publisher`, `trustlevel`,
`topic`. -/
structure EventDetails where
  publisher : Option String
  trustlevel : Option Nat
  topic : Option URI
  deriving DecidableEq, Repr

/-- `InvocationDetails` (`options.rs`): optional `procedure`. -/
structure InvocationDetails where
  procedure : Option URI
  deriving DecidableEq, Repr

/-- `ResultDetails` (`options.rs`): empty record. -/
structure ResultDetails where
  deriving DecidableEq, Repr

/-- `EventDetails::new`. -/
def EventDetails.new : EventDetails := ⟨none, none, none⟩

/-- `InvocationDetails::new`. -/
def InvocationDetails.new : InvocationDetails := ⟨none⟩

/-- `ErrorDetails::new`. -/
def ErrorDetails.new : ErrorDetails := ⟨none⟩

/-- `impl Serialize for MatchingPolicy` (`types/mod.rs`): `Prefix` is
`"prefix"`, `Wildcard` is `"wildcard"`, `Strict` is the empty string. -/
def MatchingPolicy.serStr : MatchingPolicy → String
  | .pfx => "prefix"
  | .wildcard => "wildcard"
  | .strict => ""

/-- `MatchingPolicyVisitor::visit_str` (`types/mod.rs`): only `"prefix"` and
`"wildcard"` parse; everything else (the empty string included) errors. -/
def MatchingPolicy.deStr (s : String) : Except String MatchingPolicy :=
  if s = "prefix" then .ok .pfx
  else if s = "wildcard" then .ok .wildcard
  else .error "Invalid matching policy"

/-- `impl Serialize for InvocationPolicy` (`types/mod.rs`). -/
def InvocationPolicy.serStr : InvocationPolicy → String
  | .single => "single"
  | .roundRobin => "roundrobin"
  | .random => "random"
  | .first => "first"
  | .last => "last"

/-- `InvocationPolicyVisitor::visit_str` (`types/mod.rs`). -/
def InvocationPolicy.deStr (s : String) : Except String InvocationPolicy :=
  if s = "single" then .ok .single
  else if s = "roundrobin" then .ok .roundRobin
  else if s = "random" then .ok .random
  else if s = "first" then .ok .first
  else if s = "last" then .ok .last
  else .error "Invalid invocation policy"

end Wampire

namespace Wampire

/-- Field lookup in a struct-as-map encoding (serde matches fields by name;
unknown entries are ignored). -/
def lookupMap (m : List (String × WireVal)) (k : String) : Option WireVal :=
  match m with
  | [] => none
  | (k1, v) :: tl => if k1 = k then some v else lookupMap tl k

/-- An optional struct field: present entries keep their name, absent ones are
skipped (`skip_serializing_if = "Option::is_none"`). -/
def optField (k : String) (v : Option WireVal) : List (String × WireVal) :=
  match v with
  | some w => [(k, w)]
  | none => []

/-- Serialisation of a `HashMap<String, bool>` feature map. -/
def encBoolMap (m : List (String × Bool)) : WireVal :=
  .vmap (m.map fun kv => (kv.1, .vbool kv.2))

/-- `PublisherRole`-style records: optional `features` map. -/
def encBasicRole (r : BasicRole) : WireVal :=
  .vmap (optField "features" (r.features.map encBoolMap))

/-- `SubscriberFeatures`: `pattern_based_subscription`, skipped if false. -/
def encSubscriberFeatures (f : SubscriberFeatures) : WireVal :=
  .vmap (if f.patternBasedSubscription
    then [("pattern_based_subscription", .vbool true)] else [])

/-- `SubscriberRole`. -/
def encSubscriberRole (r : SubscriberRole) : WireVal :=
  .vmap (optField "features" (r.features.map encSubscriberFeatures))

/-- `DealerFeatures`: `pattern_based_registration`, skipped if false. -/
def encDealerFeatures (f : DealerFeatures) : WireVal :=
  .vmap (if f.patternBasedRegistration
    then [("pattern_based_registration", .vbool true)] else [])

/-- `DealerRole`. -/
def encDealerRole (r : DealerRole) : WireVal :=
  .vmap (optField "features" (r.features.map encDealerFeatures))

/-- `BrokerFeatures`: `pattern_based_subscription`, skipped if false. -/
def encBrokerFeatures (f : BrokerFeatures) : WireVal :=
  .vmap (if f.patternBasedSubscription
    then [("pattern_based_subscription", .vbool true)] else [])

/-- `BrokerRole`. -/
def encBrokerRole (r : BrokerRole) : WireVal :=
  .vmap (optField "features" (r.features.map encBrokerFeatures))

/-- `ClientRoles`: four role records in declaration order. -/
def encClientRoles (c : ClientRoles) : WireVal :=
  .vmap [("publisher", encBasicRole c.publisher),
         ("subscriber", encSubscriberRole c.subscriber),
         ("caller", encBasicRole c.caller),
         ("callee", encBasicRole c.callee)]

/-- `RouterRoles`: dealer then broker. -/
def encRouterRoles (r : RouterRoles) : WireVal :=
  .vmap [("dealer", encDealerRole r.dealer), ("broker", encBrokerRole r.broker)]

/-- `HelloDetails`: optional `agent`, then `roles`. -/
def encHelloDetails (h : HelloDetails) : WireVal :=
  .vmap (optField "agent" (h.agent.map .vstr) ++ [("roles", encClientRoles h.roles)])

/-- `WelcomeDetails`: optional `agent`, then `roles`. -/
def encWelcomeDetails (h : WelcomeDetails) : WireVal :=
  .vmap (optField "agent" (h.agent.map .vstr) ++ [("roles", encRouterRoles h.roles)])

/-- `ErrorDetails`: optional `message`. -/
def encErrorDetails (e : ErrorDetails) : WireVal :=
  .vmap (optField "message" (e.message.map .vstr))

/-- `SubscribeOptions`: `match` field, omitted when strict. -/
def encSubscribeOptions (o : SubscribeOptions) : WireVal :=
  .vmap (if o.patternMatch = .strict then []
         else [("match", .vstr o.patternMatch.serStr)])

/-- `PublishOptions`: `acknowledge`, omitted when false. -/
def encPublishOptions (o : PublishOptions) : WireVal :=
  .vmap (if o.acknowledge then [("acknowledge", .vbool true)] else [])

/-- `RegisterOptions`: `match` (omitted when strict) then `invoke` (omitted
when single). -/
def encRegisterOptions (o : RegisterOptions) : WireVal :=
  .vmap ((if o.patternMatch = .strict then []
          else [("match", .vstr o.patternMatch.serStr)]) ++
         (if o.invocationPolicy = .single then []
          else [("invoke", .vstr o.invocationPolicy.serStr)]))

/-- `CallOptions`: empty record. -/
def encCallOptions (_ : CallOptions) : WireVal := .vmap []

/-- `YieldOptions`: empty record. -/
def encYieldOptions (_ : YieldOptions) : WireVal := .vmap []

/-- `ResultDetails`: empty record. -/
def encResultDetails (_ : ResultDetails) : WireVal := .vmap []

/-- `EventDetails`: optional `publisher`, `trustlevel`, `topic`. -/
def encEventDetails (d : EventDetails) : WireVal :=
  .vmap (optField "publisher" (d.publisher.map .vstr) ++
         optField "trustlevel" (d.trustlevel.map .vuint) ++
         optField "topic" (d.topic.map fun u => .vstr u.uri))

/-- `InvocationDetails`: optional `procedure`. -/
def encInvocationDetails (d : InvocationDetails) : WireVal :=
  .vmap (optField "procedure" (d.procedure.map fun u => .vstr u.uri))

/-! ### Decoders (the `Deserialize` side) -/

/-- Deserialise a string. -/
def decStr : WireVal → Except String String
  | .vstr s => .ok s
  | _ => .error "expected string"

/-- Deserialise a bool. -/
def decBool : WireVal → Except String Bool
  | .vbool b => .ok b
  | _ => .error "expected bool"

/-- Deserialise a `u64` (serde also accepts a non-negative signed value). -/
def decU64 : WireVal → Except String Nat
  | .vuint n => .ok n
  | .vint i => if 0 ≤ i then .ok i.toNat else .error "expected u64"
  | _ => .error "expected u64"

/-- `URIVisitor::visit_str` (`value.rs`). -/
def decURI : WireVal → Except String URI
  | .vstr s => .ok ⟨s⟩
  | _ => .error "expected uri string"

/-- An optional field with serde `default`: absent means `none`. -/
def decOptField (m : List (String × WireVal)) (k : String)
    (f : WireVal → Except String α) : Except String (Option α) :=
  match lookupMap m k with
  | none => .ok none
  | some w => (f w).map some

/-- A defaulted `bool` field: absent means `false`. -/
def decBoolField (m : List (String × WireVal)) (k : String) :
    Except String Bool :=
  match lookupMap m k with
  | none => .ok false
  | some w => decBool w

/-- A required field: absent is a deserialisation error. -/
def reqField (m : List (String × WireVal)) (k : String)
    (f : WireVal → Except String α) : Except String α :=
  match lookupMap m k with
  | none => .error "missing field"
  | some w => f w

/-- Deserialise a `HashMap<String, bool>` feature map. -/
def decBoolEntries : List (String × WireVal) → Except String (List (String × Bool))
  | [] => .ok []
  | (k, w) :: tl => do
      let b ← decBool w
      let rest ← decBoolEntries tl
      .ok ((k, b) :: rest)

/-- Deserialise a feature map value. -/
def decBoolMap : WireVal → Except String (List (String × Bool))
  | .vmap xs => decBoolEntries xs
  | _ => .error "expected map"

/-- Deserialise a `PublisherRole`-style record. -/
def decBasicRole : WireVal → Except String BasicRole
  | .vmap m => do
      let f ← decOptField m "features" decBoolMap
      .ok ⟨f⟩
  | _ => .error "expected map"

/-- Deserialise `SubscriberFeatures`. -/
def decSubscriberFeatures : WireVal → Except String SubscriberFeatures
  | .vmap m => do
      let b ← decBoolField m "pattern_based_subscription"
      .ok ⟨b⟩
  | _ => .error "expected map"

/-- Deserialise a `SubscriberRole`. -/
def decSubscriberRole : WireVal → Except String SubscriberRole
  | .vmap m => do
      let f ← decOptField m "features" decSubscriberFeatures
      .ok ⟨f⟩
  | _ => .error "expected map"

/-- Deserialise `DealerFeatures`. -/
def decDealerFeatures : WireVal → Except String DealerFeatures
  | .vmap m => do
      let b ← decBoolField m "pattern_based_registration"
      .ok ⟨b⟩
  | _ => .error "expected map"

/-- Deserialise a `DealerRole`. -/
def decDealerRole : WireVal → Except String DealerRole
  | .vmap m => do
      let f ← decOptField m "features" decDealerFeatures
      .ok ⟨f⟩
  | _ => .error "expected map"

/-- Deserialise `BrokerFeatures`. -/
def decBrokerFeatures : WireVal → Except String BrokerFeatures
  | .vmap m => do
      let b ← decBoolField m "pattern_based_subscription"
      .ok ⟨b⟩
  | _ => .error "expected map"

/-- Deserialise a `BrokerRole`. -/
def decBrokerRole : WireVal → Except String BrokerRole
  | .vmap m => do
      let f ← decOptField m "features" decBrokerFeatures
      .ok ⟨f⟩
  | _ => .error "expected map"

/-- Deserialise `ClientRoles` (all four fields required). -/
def decClientRoles : WireVal → Except String ClientRoles
  | .vmap m => do
      let p ← reqField m "publisher" decBasicRole
      let s ← reqField m "subscriber" decSubscriberRole
      let ca ← reqField m "caller" decBasicRole
      let ce ← reqField m "callee" decBasicRole
      .ok ⟨p, s, ca, ce⟩
  | _ => .error "expected map"

/-- Deserialise `RouterRoles`. -/
def decRouterRoles : WireVal → Except String RouterRoles
  | .vmap m => do
      let d ← reqField m "dealer" decDealerRole
      let b ← reqField m "broker" decBrokerRole
      .ok ⟨d, b⟩
  | _ => .error "expected map"

/-- Deserialise `HelloDetails`. -/
def decHelloDetails : WireVal → Except String HelloDetails
  | .vmap m => do
      let a ← decOptField m "agent" decStr
      let r ← reqField m "roles" decClientRoles
      .ok ⟨a, r⟩
  | _ => .error "expected map"

/-- Deserialise `WelcomeDetails`. -/
def decWelcomeDetails : WireVal → Except String WelcomeDetails
  | .vmap m => do
      let a ← decOptField m "agent" decStr
      let r ← reqField m "roles" decRouterRoles
      .ok ⟨a, r⟩
  | _ => .error "expected map"

/-- Deserialise `ErrorDetails`. -/
def decErrorDetails : WireVal → Except String ErrorDetails
  | .vmap m => do
      let s ← decOptField m "message" decStr
      .ok ⟨s⟩
  | _ => .error "expected map"

/-- The `match` field of subscribe/register options: absent means strict. -/
def decMatchField (m : List (String × WireVal)) :
    Except String MatchingPolicy :=
  match lookupMap m "match" with
  | none => .ok .strict
  | some w => do
      let s ← decStr w
      MatchingPolicy.deStr s

/-- The `invoke` field of register options: absent means single. -/
def decInvokeField (m : List (String × WireVal)) :
    Except String InvocationPolicy :=
  match lookupMap m "invoke" with
  | none => .ok .single
  | some w => do
      let s ← decStr w
      InvocationPolicy.deStr s

/-- Deserialise `SubscribeOptions`. -/
def decSubscribeOptions : WireVal → Except String SubscribeOptions
  | .vmap m => do
      let p ← decMatchField m
      .ok ⟨p⟩
  | _ => .error "expected map"

/-- Deserialise `PublishOptions`. -/
def decPublishOptions : WireVal → Except String PublishOptions
  | .vmap m => do
      let b ← decBoolField m "acknowledge"
      .ok ⟨b⟩
  | _ => .error "expected map"

/-- Deserialise `RegisterOptions`. -/
def decRegisterOptions : WireVal → Except String RegisterOptions
  | .vmap m => do
      let p ← decMatchField m
      let i ← decInvokeField m
      .ok ⟨p, i⟩
  | _ => .error "expected map"

/-- Deserialise `CallOptions` (any map). -/
def decCallOptions : WireVal → Except String CallOptions
  | .vmap _ => .ok ⟨⟩
  | _ => .error "expected map"

/-- Deserialise `YieldOptions` (any map). -/
def decYieldOptions : WireVal → Except String YieldOptions
  | .vmap _ => .ok ⟨⟩
  | _ => .error "expected map"

/-- Deserialise `ResultDetails` (any map). -/
def decResultDetails : WireVal → Except String ResultDetails
  | .vmap _ => .ok ⟨⟩
  | _ => .error "expected map"

/-- Deserialise `EventDetails`. -/
def decEventDetails : WireVal → Except String EventDetails
  | .vmap m => do
      let p ← decOptField m "publisher" decStr
      let t ← decOptField m "trustlevel" decU64
      let to2 ← decOptField m "topic" decURI
      .ok ⟨p, t, to2⟩
  | _ => .error "expected map"

/-- Deserialise `InvocationDetails`. -/
def decInvocationDetails : WireVal → Except String InvocationDetails
  | .vmap m => do
      let p ← decOptField m "procedure" decURI
      .ok ⟨p⟩
  | _ => .error "expected map"

/-- Deserialise a raw `Dict` of `Value`s. -/
def decDictW : WireVal → Except String Dict
  | .vmap xs => .ok (decodeValueDict xs)
  | _ => .error "expected map"

/-- Deserialise a raw `List` of `Value`s. -/
def decListW : WireVal → Except String ValList
  | .varr xs => .ok (decodeValueList xs)
  | _ => .error "expected list"

/-- Deserialise a `Reason` (any string parses; unknown uris become
`CustomReason`). -/
def decReason : WireVal → Except String Reason
  | .vstr s => .ok (Reason.fromString s)
  | _ => .error "expected reason uri"

/-- Deserialise an `ErrorType` from its numeric tag. -/
def decErrorType (w : WireVal) : Except String ErrorType := do
  let n ← decU64 w
  match ErrorType.fromTag n with
  | some t => .ok t
  | none => .error "Invalid message error type"

end Wampire

namespace Wampire

theorem decBoolMap_enc (l : List (String × Bool)) :
    decBoolMap (encBoolMap l) = .ok l := by
  induction l with
  | nil => rfl
  | cons kv tl ih =>
      obtain ⟨k, b⟩ := kv
      simp only [encBoolMap, List.map_cons, decBoolMap] at ih ⊢
      simp [decBoolEntries, decBool, ih, Bind.bind, Except.bind]

theorem decBasicRole_enc (r : BasicRole) :
    decBasicRole (encBasicRole r) = .ok r := by
  obtain ⟨f⟩ := r
  cases f with
  | none => rfl
  | some m =>
      simp [encBasicRole, decBasicRole, optField, decOptField, lookupMap,
        decBoolMap_enc, Except.map, Bind.bind, Except.bind]

theorem decSubscriberFeatures_enc (f : SubscriberFeatures) :
    decSubscriberFeatures (encSubscriberFeatures f) = .ok f := by
  obtain ⟨b⟩ := f
  cases b <;> rfl

theorem decSubscriberRole_enc (r : SubscriberRole) :
    decSubscriberRole (encSubscriberRole r) = .ok r := by
  obtain ⟨f⟩ := r
  cases f with
  | none => rfl
  | some x =>
      simp [encSubscriberRole, decSubscriberRole, optField, decOptField,
        lookupMap, decSubscriberFeatures_enc, Except.map, Bind.bind,
        Except.bind]

theorem decDealerFeatures_enc (f : DealerFeatures) :
    decDealerFeatures (encDealerFeatures f) = .ok f := by
  obtain ⟨b⟩ := f
  cases b <;> rfl

theorem decDealerRole_enc (r : DealerRole) :
    decDealerRole (encDealerRole r) = .ok r := by
  obtain ⟨f⟩ := r
  cases f with
  | none => rfl
  | some x =>
      simp [encDealerRole, decDealerRole, optField, decOptField, lookupMap,
        decDealerFeatures_enc, Except.map, Bind.bind, Except.bind]

theorem decBrokerFeatures_enc (f : BrokerFeatures) :
    decBrokerFeatures (encBrokerFeatures f) = .ok f := by
  obtain ⟨b⟩ := f
  cases b <;> rfl

theorem decBrokerRole_enc (r : BrokerRole) :
    decBrokerRole (encBrokerRole r) = .ok r := by
  obtain ⟨f⟩ := r
  cases f with
  | none => rfl
  | some x =>
      simp [encBrokerRole, decBrokerRole, optField, decOptField, lookupMap,
        decBrokerFeatures_enc, Except.map, Bind.bind, Except.bind]

theorem decClientRoles_enc (c : ClientRoles) :
    decClientRoles (encClientRoles c) = .ok c := by
  obtain ⟨p, s, ca, ce⟩ := c
  simp [encClientRoles, decClientRoles, reqField, lookupMap,
    decBasicRole_enc, decSubscriberRole_enc, Bind.bind, Except.bind]

theorem decRouterRoles_enc (r : RouterRoles) :
    decRouterRoles (encRouterRoles r) = .ok r := by
  obtain ⟨d, b⟩ := r
  simp [encRouterRoles, decRouterRoles, reqField, lookupMap,
    decDealerRole_enc, decBrokerRole_enc, Bind.bind, Except.bind]

theorem decHelloDetails_enc (h : HelloDetails) :
    decHelloDetails (encHelloDetails h) = .ok h := by
  obtain ⟨a, r⟩ := h
  cases a <;>
    simp [encHelloDetails, decHelloDetails, optField, decOptField, reqField,
      lookupMap, decStr, decClientRoles_enc, Except.map, Bind.bind,
      Except.bind]

theorem decWelcomeDetails_enc (h : WelcomeDetails) :
    decWelcomeDetails (encWelcomeDetails h) = .ok h := by
  obtain ⟨a, r⟩ := h
  cases a <;>
    simp [encWelcomeDetails, decWelcomeDetails, optField, decOptField,
      reqField, lookupMap, decStr, decRouterRoles_enc, Except.map, Bind.bind,
      Except.bind]

theorem decErrorDetails_enc (e : ErrorDetails) :
    decErrorDetails (encErrorDetails e) = .ok e := by
  obtain ⟨s⟩ := e
  cases s <;>
    simp [encErrorDetails, decErrorDetails, optField, decOptField, lookupMap,
      decStr, Except.map, Bind.bind, Except.bind]

theorem decSubscribeOptions_enc (o : SubscribeOptions) :
    decSubscribeOptions (encSubscribeOptions o) = .ok o := by
  obtain ⟨p⟩ := o
  cases p <;> rfl

theorem decPublishOptions_enc (o : PublishOptions) :
    decPublishOptions (encPublishOptions o) = .ok o := by
  obtain ⟨b⟩ := o
  cases b <;> rfl

theorem decRegisterOptions_enc (o : RegisterOptions) :
    decRegisterOptions (encRegisterOptions o) = .ok o := by
  obtain ⟨p, i⟩ := o
  cases p <;> cases i <;> rfl

theorem decEventDetails_enc (d : EventDetails) :
    decEventDetails (encEventDetails d) = .ok d := by
  obtain ⟨p, t, to2⟩ := d
  cases p <;> cases t <;> cases to2 <;>
    simp [encEventDetails, decEventDetails, optField, decOptField, lookupMap,
      decStr, decU64, decURI, Except.map, Bind.bind, Except.bind]

theorem decInvocationDetails_enc (d : InvocationDetails) :
    decInvocationDetails (encInvocationDetails d) = .ok d := by
  obtain ⟨p⟩ := d
  cases p <;>
    simp [encInvocationDetails, decInvocationDetails, optField, decOptField,
      lookupMap, decURI, Except.map, Bind.bind, Except.bind]

theorem decDictW_enc (d : Dict) : decDictW (.vmap (encodeDict d)) = .ok d := by
  simp [decDictW, decode_encodeDict]

theorem decListW_enc (l : ValList) :
    decListW (.varr (encodeList l)) = .ok l := by
  simp [decListW, decode_encodeList]

/-- Decoding the serialised form of a `Reason` recovers it, except that a
`CustomReason` whose uri happens to be one of the nineteen reserved reason
uris comes back as the corresponding named variant. -/
def normReason : Reason → Reason
  | .customReason u => Reason.fromString u.uri
  | r => r

theorem decReason_enc (r : Reason) :
    decReason (.vstr r.getString) = .ok (normReason r) := by
  cases r <;> rfl

theorem decErrorType_enc (t : ErrorType) :
    decErrorType (.vuint t.toTag) = .ok t := by
  cases t <;> rfl

end Wampire

namespace Wampire

/-- `Message` (`src/messages/mod.rs`): the 20-variant tagged union. -/
inductive Message where
  | hello (realm : URI) (details : HelloDetails)
  | welcome (session : ID) (details : WelcomeDetails)
  | abort (details : ErrorDetails) (reason : Reason)
  | goodbye (details : ErrorDetails) (reason : Reason)
  | error (ty : ErrorType) (id : ID) (details : Dict) (reason : Reason)
      (args : Option ValList) (kwargs : Option Dict)
  | subscribe (requestId : ID) (options : SubscribeOptions) (topic : URI)
  | subscribed (requestId subscriptionId : ID)
  | unsubscribe (requestId subscriptionId : ID)
  | unsubscribed (requestId : ID)
  | publish (id : ID) (options : PublishOptions) (topic : URI)
      (args : Option ValList) (kwargs : Option Dict)
  | published (requestId publicationId : ID)
  | event (subscriptionId publicationId : ID) (details : EventDetails)
      (args : Option ValList) (kwargs : Option Dict)
  | register (requestId : ID) (options : RegisterOptions) (procedure : URI)
  | registered (requestId registrationId : ID)
  | unregister (requestId registrationId : ID)
  | unregistered (requestId : ID)
  | call (id : ID) (options : CallOptions) (topic : URI)
      (args : Option ValList) (kwargs : Option Dict)
  | invocation (id registrationId : ID) (details : InvocationDetails)
      (args : Option ValList) (kwargs : Option Dict)
  | yield (id : ID) (options : YieldOptions)
      (args : Option ValList) (kwargs : Option Dict)
  | result (id : ID) (details : ResultDetails)
      (args : Option ValList) (kwargs : Option Dict)

/-- The `serialize_with_args!` macro (`src/messages/mod.rs`): append the
optional `args`/`kwargs` tail to the already-serialised leading items.  When
`kwargs` is present but `args` is not, an empty list sentinel
(`Vec::<u8>::new()`) is emitted in the `args` position. -/
def serializeWithArgs (args : Option ValList) (kwargs : Option Dict)
    (items : List WireVal) : List WireVal :=
  match kwargs with
  | some kw =>
      match args with
      | some a => items ++ [.varr (encodeList a), .vmap (encodeDict kw)]
      | none => items ++ [.varr [], .vmap (encodeDict kw)]
  | none =>
      match args with
      | some a => items ++ [.varr (encodeList a)]
      | none => items

/-- `impl Serialize for Message` (`src/messages/mod.rs`): each variant is an
array headed by its numeric tag. -/
def encodeMessage : Message → WireVal
  | .hello realm details => .varr [.vuint 1, .vstr realm.uri, encHelloDetails details]
  | .welcome session details => .varr [.vuint 2, .vuint session, encWelcomeDetails details]
  | .abort details reason => .varr [.vuint 3, encErrorDetails details, .vstr reason.getString]
  | .goodbye details reason => .varr [.vuint 6, encErrorDetails details, .vstr reason.getString]
  | .error ty id details reason args kwargs =>
      .varr (serializeWithArgs args kwargs
        [.vuint 8, .vuint ty.toTag, .vuint id, .vmap (encodeDict details),
         .vstr reason.getString])
  | .subscribe requestId options topic =>
      .varr [.vuint 32, .vuint requestId, encSubscribeOptions options, .vstr topic.uri]
  | .subscribed requestId subscriptionId =>
      .varr [.vuint 33, .vuint requestId, .vuint subscriptionId]
  | .unsubscribe requestId subscriptionId =>
      .varr [.vuint 34, .vuint requestId, .vuint subscriptionId]
  | .unsubscribed requestId => .varr [.vuint 35, .vuint requestId]
  | .publish id options topic args kwargs =>
      .varr (serializeWithArgs args kwargs
        [.vuint 16, .vuint id, encPublishOptions options, .vstr topic.uri])
  | .published requestId publicationId =>
      .varr [.vuint 17, .vuint requestId, .vuint publicationId]
  | .event subscriptionId publicationId details args kwargs =>
      .varr (serializeWithArgs args kwargs
        [.vuint 36, .vuint subscriptionId, .vuint publicationId,
         encEventDetails details])
  | .register requestId options procedure =>
      .varr [.vuint 64, .vuint requestId, encRegisterOptions options, .vstr procedure.uri]
  | .registered requestId registrationId =>
      .varr [.vuint 65, .vuint requestId, .vuint registrationId]
  | .unregister requestId registrationId =>
      .varr [.vuint 66, .vuint requestId, .vuint registrationId]
  | .unregistered requestId => .varr [.vuint 67, .vuint requestId]
  | .call id options topic args kwargs =>
      .varr (serializeWithArgs args kwargs
        [.vuint 48, .vuint id, encCallOptions options, .vstr topic.uri])
  | .invocation id registrationId details args kwargs =>
      .varr (serializeWithArgs args kwargs
        [.vuint 68, .vuint id, .vuint registrationId,
         encInvocationDetails details])
  | .yield id options args kwargs =>
      .varr (serializeWithArgs args kwargs
        [.vuint 70, .vuint id, encYieldOptions options])
  | .result id details args kwargs =>
      .varr (serializeWithArgs args kwargs
        [.vuint 50, .vuint id, encResultDetails details])

/-- The optional positional tail: `let args = try!(visitor.next_element());
let kwargs = try!(visitor.next_element());` — absent trailing elements give
`None`, present ones must parse as a list resp. a dict. -/
def getArgsKwargs : List WireVal → Except String (Option ValList × Option Dict)
  | [] => .ok (none, none)
  | [a] => do
      let l ← decListW a
      .ok (some l, none)
  | a :: k :: _ => do
      let l ← decListW a
      let d ← decDictW k
      .ok (some l, some d)

/-- `MessageVisitor::visit_hello`. -/
def visitHello : List WireVal → Except String Message
  | u :: d :: _ => do
      let uri ← decURI u
      let details ← decHelloDetails d
      .ok (.hello uri details)
  | _ => .error "Hello message ended early"

/-- `MessageVisitor::visit_welcome`. -/
def visitWelcome : List WireVal → Except String Message
  | s :: d :: _ => do
      let session ← decU64 s
      let details ← decWelcomeDetails d
      .ok (.welcome session details)
  | _ => .error "Welcome message ended early"

/-- `MessageVisitor::visit_abort`. -/
def visitAbort : List WireVal → Except String Message
  | d :: r :: _ => do
      let details ← decErrorDetails d
      let reason ← decReason r
      .ok (.abort details reason)
  | _ => .error "Abort message ended early"

/-- `MessageVisitor::visit_goodbye`. -/
def visitGoodbye : List WireVal → Except String Message
  | d :: r :: _ => do
      let details ← decErrorDetails d
      let reason ← decReason r
      .ok (.goodbye details reason)
  | _ => .error "Goodbye message ended early"

/-- `MessageVisitor::visit_error`. -/
def visitError : List WireVal → Except String Message
  | ty :: id :: d :: r :: rest => do
      let t ← decErrorType ty
      let i ← decU64 id
      let details ← decDictW d
      let reason ← decReason r
      let (args, kwargs) ← getArgsKwargs rest
      .ok (.error t i details reason args kwargs)
  | _ => .error "Error message ended early"

/-- `MessageVisitor::visit_subscribe`. -/
def visitSubscribe : List WireVal → Except String Message
  | r :: o :: t :: _ => do
      let request ← decU64 r
      let options ← decSubscribeOptions o
      let topic ← decURI t
      .ok (.subscribe request options topic)
  | _ => .error "Subscribe message ended early"

/-- `MessageVisitor::visit_subscribed`. -/
def visitSubscribed : List WireVal → Except String Message
  | r :: s :: _ => do
      let request ← decU64 r
      let subscription ← decU64 s
      .ok (.subscribed request subscription)
  | _ => .error "Subscribed message ended early"

/-- `MessageVisitor::visit_unsubscribe`. -/
def visitUnsubscribe : List WireVal → Except String Message
  | r :: s :: _ => do
      let request ← decU64 r
      let subscription ← decU64 s
      .ok (.unsubscribe request subscription)
  | _ => .error "Unsubscribe message ended early"

/-- `MessageVisitor::visit_unsubscribed`. -/
def visitUnsubscribed : List WireVal → Except String Message
  | r :: _ => do
      let request ← decU64 r
      .ok (.unsubscribed request)
  | _ => .error "Unsubscribed message ended early"

/-- `MessageVisitor::visit_publish`. -/
def visitPublish : List WireVal → Except String Message
  | i :: o :: t :: rest => do
      let id ← decU64 i
      let options ← decPublishOptions o
      let topic ← decURI t
      let (args, kwargs) ← getArgsKwargs rest
      .ok (.publish id options topic args kwargs)
  | _ => .error "Publish message ended early"

/-- `MessageVisitor::visit_published`. -/
def visitPublished : List WireVal → Except String Message
  | r :: p :: _ => do
      let request ← decU64 r
      let publication ← decU64 p
      .ok (.published request publication)
  | _ => .error "Published message ended early"

/-- `MessageVisitor::visit_event`. -/
def visitEvent : List WireVal → Except String Message
  | s :: p :: d :: rest => do
      let subscriptionId ← decU64 s
      let publicationId ← decU64 p
      let details ← decEventDetails d
      let (args, kwargs) ← getArgsKwargs rest
      .ok (.event subscriptionId publicationId details args kwargs)
  | _ => .error "Event message ended early"

/-- `MessageVisitor::visit_register`. -/
def visitRegister : List WireVal → Except String Message
  | r :: o :: p :: _ => do
      let request ← decU64 r
      let options ← decRegisterOptions o
      let procedure ← decURI p
      .ok (.register request options procedure)
  | _ => .error "Register message ended early"

/-- `MessageVisitor::visit_registered`. -/
def visitRegistered : List WireVal → Except String Message
  | r :: g :: _ => do
      let request ← decU64 r
      let registrationId ← decU64 g
      .ok (.registered request registrationId)
  | _ => .error "Registered message ended early"

/-- `MessageVisitor::visit_unregister`. -/
def visitUnregister : List WireVal → Except String Message
  | r :: g :: _ => do
      let request ← decU64 r
      let registrationId ← decU64 g
      .ok (.unregister request registrationId)
  | _ => .error "Unregister message ended early"

/-- `MessageVisitor::visit_unregistered`. -/
def visitUnregistered : List WireVal → Except String Message
  | r :: _ => do
      let request ← decU64 r
      .ok (.unregistered request)
  | _ => .error "Unregistered message ended early"

/-- `MessageVisitor::visit_call`. -/
def visitCall : List WireVal → Except String Message
  | i :: o :: t :: rest => do
      let id ← decU64 i
      let options ← decCallOptions o
      let topic ← decURI t
      let (args, kwargs) ← getArgsKwargs rest
      .ok (.call id options topic args kwargs)
  | _ => .error "Call message ended early"

/-- `MessageVisitor::visit_invocation`. -/
def visitInvocation : List WireVal → Except String Message
  | i :: g :: d :: rest => do
      let id ← decU64 i
      let registrationId ← decU64 g
      let details ← decInvocationDetails d
      let (args, kwargs) ← getArgsKwargs rest
      .ok (.invocation id registrationId details args kwargs)
  | _ => .error "Invocation message ended early"

/-- `MessageVisitor::visit_yield`. -/
def visitYield : List WireVal → Except String Message
  | i :: o :: rest => do
      let id ← decU64 i
      let options ← decYieldOptions o
      let (args, kwargs) ← getArgsKwargs rest
      .ok (.yield id options args kwargs)
  | _ => .error "Yield message ended early"

/-- `MessageVisitor::visit_result`. -/
def visitResult : List WireVal → Except String Message
  | i :: d :: rest => do
      let id ← decU64 i
      let details ← decResultDetails d
      let (args, kwargs) ← getArgsKwargs rest
      .ok (.result id details args kwargs)
  | _ => .error "Result message ended early"

/-- The tag dispatch of `MessageVisitor::visit_seq` (`src/messages/mod.rs`),
match arms in source order; any other tag is the `Unknown message type` codec
error. -/
def dispatchTag (t : Nat) (rest : List WireVal) : Except String Message :=
  if t = 1 then visitHello rest
  else if t = 2 then visitWelcome rest
  else if t = 3 then visitAbort rest
  else if t = 6 then visitGoodbye rest
  else if t = 8 then visitError rest
  else if t = 32 then visitSubscribe rest
  else if t = 33 then visitSubscribed rest
  else if t = 34 then visitUnsubscribe rest
  else if t = 35 then visitUnsubscribed rest
  else if t = 16 then visitPublish rest
  else if t = 17 then visitPublished rest
  else if t = 36 then visitEvent rest
  else if t = 64 then visitRegister rest
  else if t = 65 then visitRegistered rest
  else if t = 66 then visitUnregister rest
  else if t = 67 then visitUnregistered rest
  else if t = 48 then visitCall rest
  else if t = 68 then visitInvocation rest
  else if t = 70 then visitYield rest
  else if t = 50 then visitResult rest
  else .error "Unknown message type"

/-- `impl Deserialize for Message` via `MessageVisitor::visit_seq`: the input
must be a sequence whose first element is the numeric tag. -/
def decodeMessage : WireVal → Except String Message
  | .varr (first :: rest) =>
      match decU64 first with
      | .ok t => dispatchTag t rest
      | .error e => .error e
  | .varr [] => .error "No message type found"
  | _ => .error "a message"

/-- The twenty message tags accepted by `visit_seq`. -/
def knownTags : List Nat :=
  [1, 2, 3, 6, 8, 32, 33, 34, 35, 16, 17, 36, 64, 65, 66, 67, 48, 68, 70, 50]

end Wampire

namespace Wampire

/-- The argument normalisation performed by one encode/decode cycle: a message
whose `args` is absent while `kwargs` is present is re-read with
`args = Some([])`, because the encoder emits an empty list sentinel in the
`args` position. -/
def normArgs (args : Option ValList) (kwargs : Option Dict) : Option ValList :=
  match args, kwargs with
  | none, some _ => some []
  | a, _ => a

/-- What one encode/decode cycle does to a message: `args` are normalised via
`normArgs`, and reason uris are normalised via `normReason`; everything else
is returned unchanged. -/
def normalizeMessage : Message → Message
  | .abort d r => .abort d (normReason r)
  | .goodbye d r => .goodbye d (normReason r)
  | .error t i d r a k => .error t i d (normReason r) (normArgs a k) k
  | .publish i o t a k => .publish i o t (normArgs a k) k
  | .event s p d a k => .event s p d (normArgs a k) k
  | .call i o t a k => .call i o t (normArgs a k) k
  | .invocation i g d a k => .invocation i g d (normArgs a k) k
  | .yield i o a k => .yield i o (normArgs a k) k
  | .result i d a k => .result i d (normArgs a k) k
  | m => m

theorem serializeWithArgs_cons (a : Option ValList) (k : Option Dict)
    (x : WireVal) (xs : List WireVal) :
    serializeWithArgs a k (x :: xs) = x :: serializeWithArgs a k xs := by
  cases a <;> cases k <;> simp [serializeWithArgs]

theorem getArgsKwargs_ser (a : Option ValList) (k : Option Dict) :
    getArgsKwargs (serializeWithArgs a k []) = .ok (normArgs a k, k) := by
  cases a <;> cases k <;>
    simp [serializeWithArgs, getArgsKwargs, decListW, decDictW,
      decode_encodeList, decode_encodeDict, decodeValueList, normArgs,
      Bind.bind, Except.bind]

theorem msg_roundtrip_normalized (m : Message) :
    decodeMessage (encodeMessage m) = .ok (normalizeMessage m) := by
  cases m <;>
    simp [encodeMessage, decodeMessage, serializeWithArgs_cons, decU64,
      dispatchTag, normalizeMessage, Bind.bind, Except.bind,
      visitHello, visitWelcome, visitAbort, visitGoodbye, visitError,
      visitSubscribe, visitSubscribed, visitUnsubscribe, visitUnsubscribed,
      visitPublish, visitPublished, visitEvent, visitRegister,
      visitRegistered, visitUnregister, visitUnregistered, visitCall,
      visitInvocation, visitYield, visitResult,
      decURI, decReason_enc, decErrorType_enc, decDictW,
      decode_encodeDict, getArgsKwargs_ser,
      decHelloDetails_enc, decWelcomeDetails_enc, decErrorDetails_enc,
      decSubscribeOptions_enc, decPublishOptions_enc, decRegisterOptions_enc,
      decEventDetails_enc, decInvocationDetails_enc,
      encCallOptions, decCallOptions, encYieldOptions, decYieldOptions,
      encResultDetails, decResultDetails]

theorem unknown_tag_fails (t : Nat) (rest : List WireVal)
    (ht : t ∉ knownTags) :
    decodeMessage (.varr (.vuint t :: rest)) = .error "Unknown message type" := by
  simp only [knownTags, List.mem_cons, List.not_mem_nil, or_false, not_or] at ht
  obtain ⟨g1, g2, g3, g6, g8, g32, g33, g34, g35, g16, g17, g36, g64, g65,
    g66, g67, g48, g68, g70, g50⟩ := ht
  simp [decodeMessage, decU64, dispatchTag, g1, g2, g3, g6, g8, g32, g33,
    g34, g35, g16, g17, g36, g64, g65, g66, g67, g48, g68, g70, g50]

end Wampire

namespace Wampire

/-! ## The subscription pattern trie (`src/router/pubsub/patterns.rs`)

`SubscriptionPatternNode<P>` is generic over `P: PatternData`, used only
through `get_id()`; entries are embedded by that id.  The `HashMap` of edges
is embedded as an association list: the Rust map has no observable order and
every trie operation accesses edges by key only.  `random_id()` is embedded
by threading a freshness counter `c`: `SubscriptionPatternNode::new` draws
two ids (`id`, then `prefix_id`). -/

/-- `PatternError` (`src/router/pubsub/patterns.rs`). -/
structure PatternError where
  reason : Reason
  deriving DecidableEq, Repr

/-- `DataWrapper<P>` (`src/router/pubsub/patterns.rs`): a subscriber together
with the matching policy its subscription used. -/
structure SubEntry where
  subscriber : ID
  policy : MatchingPolicy
  deriving DecidableEq, Repr

/-- `SubscriptionPatternNode<P>`: edges keyed by uri segment, exact-match
subscriber list (`connections`), the `Prefix`-policy list
(`prefix_connections`), and the two node ids. -/
inductive SubNode where
  | mk (edges : List (String × SubNode)) (connections : List SubEntry)
      (pfxConnections : List SubEntry) (nid : ID) (pfxId : ID)

/-- The `edges` field. -/
def SubNode.edges : SubNode → List (String × SubNode)
  | .mk e _ _ _ _ => e

/-- The `connections` field. -/
def SubNode.connections : SubNode → List SubEntry
  | .mk _ c _ _ _ => c

/-- The `prefix_connections` field. -/
def SubNode.pfxConnections : SubNode → List SubEntry
  | .mk _ _ p _ _ => p

/-- The `id` field. -/
def SubNode.nid : SubNode → ID
  | .mk _ _ _ i _ => i

/-- The `prefix_id` field. -/
def SubNode.pfxId : SubNode → ID
  | .mk _ _ _ _ p => p

/-- `SubscriptionPatternNode::new` at freshness counter `c`: empty node whose
`id` and `prefix_id` are the two next fresh ids. -/
def SubNode.new (c : Nat) : SubNode :=
  .mk [] [] [] c (c + 1)

/-- `HashMap::get` on the edge map. -/
def lookupEdge (edges : List (String × SubNode)) (k : String) : Option SubNode :=
  match edges with
  | [] => none
  | (k1, n) :: tl => if k1 = k then some n else lookupEdge tl k

/-- Replace the child stored under an existing key (the write-back half of
`HashMap::entry().or_insert_with` / `get_mut`). -/
def setEdge (edges : List (String × SubNode)) (k : String) (n : SubNode) :
    List (String × SubNode) :=
  match edges with
  | [] => []
  | (k1, old) :: tl => if k1 = k then (k1, n) :: tl else (k1, old) :: setEdge tl k n

/-- `SubscriptionPatternNode::add_subscription`: walk the remaining uri bits,
creating missing edges; an empty bit under a non-wildcard policy is an
`InvalidURI` error (edges created so far stay in the trie, as in the Rust
`entry().or_insert_with` mutation); at the end the entry is pushed onto the
prefix list (for `Prefix` policy) or the exact list, and the node's
corresponding id is returned.  Result: (outcome, updated node, counter). -/
def addSubscription : List String → SubNode → ID → MatchingPolicy → Nat →
    (Except PatternError ID) × SubNode × Nat
  | [], node, sub, pol, c =>
      if pol = .pfx then
        (.ok node.pfxId,
         .mk node.edges node.connections (node.pfxConnections ++ [⟨sub, pol⟩])
           node.nid node.pfxId, c)
      else
        (.ok node.nid,
         .mk node.edges (node.connections ++ [⟨sub, pol⟩]) node.pfxConnections
           node.nid node.pfxId, c)
  | bit :: rest, node, sub, pol, c =>
      if bit = "" ∧ pol ≠ .wildcard then (.error ⟨.invalidURI⟩, node, c)
      else
        match lookupEdge node.edges bit with
        | some child =>
            let r := addSubscription rest child sub pol c
            (r.1, .mk (setEdge node.edges bit r.2.1) node.connections
              node.pfxConnections node.nid node.pfxId, r.2.2)
        | none =>
            let r := addSubscription rest (SubNode.new c) sub pol (c + 2)
            (r.1, .mk (node.edges ++ [(bit, r.2.1)]) node.connections
              node.pfxConnections node.nid node.pfxId, r.2.2)

/-- `SubscriptionPatternNode::subscribe_with`: split the topic at dots and
insert.  Note that the *initial* uri bit is consumed without the empty-segment
check (`subscribe_with` creates the first edge itself and only the recursive
`add_subscription` validates bits). -/
def subscribeWith (node : SubNode) (topic : String) (sub : ID)
    (pol : MatchingPolicy) (c : Nat) : (Except PatternError ID) × SubNode × Nat :=
  match splitDots topic with
  | [] => (.error ⟨.invalidURI⟩, node, c)
  | initial :: rest =>
      match lookupEdge node.edges initial with
      | some child =>
          let r := addSubscription rest child sub pol c
          (r.1, .mk (setEdge node.edges initial r.2.1) node.connections
            node.pfxConnections node.nid node.pfxId, r.2.2)
      | none =>
          let r := addSubscription rest (SubNode.new c) sub pol (c + 2)
          (r.1, .mk (node.edges ++ [(initial, r.2.1)]) node.connections
            node.pfxConnections node.nid node.pfxId, r.2.2)

/-- `SubscriptionPatternNode::remove_subscription`: walk the uri bits; a
missing edge is `InvalidURI`; at the target node every entry whose subscriber
id equals the given id is retained away from the prefix list (`is_prefix`) or
the exact list, and the node's corresponding id is returned. -/
def removeSubscription : List String → SubNode → ID → Bool →
    (Except PatternError ID) × SubNode
  | [], node, subId, isPfx =>
      if isPfx then
        (.ok node.pfxId,
         .mk node.edges node.connections
           (node.pfxConnections.filter fun e => e.subscriber ≠ subId)
           node.nid node.pfxId)
      else
        (.ok node.nid,
         .mk node.edges (node.connections.filter fun e => e.subscriber ≠ subId)
           node.pfxConnections node.nid node.pfxId)
  | bit :: rest, node, subId, isPfx =>
      match lookupEdge node.edges bit with
      | some child =>
          let r := removeSubscription rest child subId isPfx
          (r.1, .mk (setEdge node.edges bit r.2) node.connections
            node.pfxConnections node.nid node.pfxId)
      | none => (.error ⟨.invalidURI⟩, node)

/-- `SubscriptionPatternNode::unsubscribe_with`. -/
def unsubscribeWith (node : SubNode) (topic : String) (subId : ID)
    (isPfx : Bool) : (Except PatternError ID) × SubNode :=
  removeSubscription (splitDots topic) node subId isPfx

/-- The traversal order of `MatchIterator` (`filter` / `traverse` / `next`):
at each node visited with the remaining uri suffix, yield

* first every `prefix_connections` entry (with the node's `prefix_id`),
* then, if the uri is fully consumed, every `connections` entry (with the
  node's `id`);
* otherwise recurse into the wildcard (empty-string) child, if any, and then
  into the child labelled with the next uri segment, if any.

Each yielded triple is (subscriber, subscription id, matching policy). -/
def matchUri : List String → SubNode → List (ID × ID × MatchingPolicy)
  | remaining, node =>
      (node.pfxConnections.map fun e => (e.subscriber, node.pfxId, e.policy)) ++
      match remaining with
      | [] => node.connections.map fun e => (e.subscriber, node.nid, e.policy)
      | seg :: rest =>
          (match lookupEdge node.edges "" with
           | some child => matchUri rest child
           | none => []) ++
          (match lookupEdge node.edges seg with
           | some child => matchUri rest child
           | none => [])

/-- `SubscriptionPatternNode::filter`: iterate every subscription matching a
published topic. -/
def filterTopic (node : SubNode) (topic : String) :
    List (ID × ID × MatchingPolicy) :=
  matchUri (splitDots topic) node

/-- Does every segment of the path have an edge in the trie?  (The condition
under which `remove_subscription` does not hit its `InvalidURI` arm.) -/
def subPathExists : List String → SubNode → Bool
  | [], _ => true
  | bit :: rest, node =>
      match lookupEdge node.edges bit with
      | some child => subPathExists rest child
      | none => false

/-- The entry list at the end of a path (prefix or exact, per `isPfx`);
`[]` if the path is missing. -/
def subEntriesAt : List String → SubNode → Bool → List SubEntry
  | [], node, isPfx => if isPfx then node.pfxConnections else node.connections
  | bit :: rest, node, isPfx =>
      match lookupEdge node.edges bit with
      | some child => subEntriesAt rest child isPfx
      | none => []

/-- The node/prefix id at the end of a path; `0` if the path is missing. -/
def subIdAt : List String → SubNode → Bool → ID
  | [], node, isPfx => if isPfx then node.pfxId else node.nid
  | bit :: rest, node, isPfx =>
      match lookupEdge node.edges bit with
      | some child => subIdAt rest child isPfx
      | none => 0

mutual

/-- The ids of trie positions currently holding at least one subscriber: a
node's `id` if its exact list is non-empty, its `prefix_id` if its prefix
list is non-empty, recursively over all edges. -/
def occList : SubNode → List ID
  | .mk edges conns pfxConns i p =>
      (if conns = [] then [] else [i]) ++
      (if pfxConns = [] then [] else [p]) ++ occEdges edges

/-- `occList` over an edge list. -/
def occEdges : List (String × SubNode) → List ID
  | [] => []
  | (_, n) :: tl => occList n ++ occEdges tl

end

end Wampire

namespace Wampire

/-! ## The registration pattern trie (`src/router/rpc/patterns.rs`)

Same trie shape, but each node stores two `ProcdureCollection`s [sic]
carrying an invocation policy and a round-robin cursor (`RefCell<usize>`,
interior mutability: lookups update it, so the collection is threaded through
results here).  `thread_rng()` used by the `Random` policy is embedded as an
explicit entropy argument; no claim under study exercises it. -/

/-- `DataWrapper<P>` (`src/router/rpc/patterns.rs`). -/
structure ProcEntry where
  registrant : ID
  policy : MatchingPolicy
  deriving DecidableEq, Repr

/-- `ProcdureCollection<P>` (`src/router/rpc/patterns.rs`). -/
structure ProcColl where
  invocationPolicy : InvocationPolicy
  roundRobinCounter : Nat
  procedures : List ProcEntry
  deriving DecidableEq, Repr

/-- A fresh, empty collection (`RegistrationPatternNode::new` initialises
policy `Single`, counter 0, no procedures). -/
def ProcColl.empty : ProcColl := ⟨.single, 0, []⟩

/-- `ProcdureCollection::add_procedure`: insert if the collection is empty,
or if the new invocation policy equals the stored one and is not `Single`;
otherwise fail with `ProcedureAlreadyExists`.  On success the stored policy
is set to the new policy. -/
def ProcColl.addProcedure (coll : ProcColl) (registrant : ID)
    (matchingPolicy : MatchingPolicy) (invocationPolicy : InvocationPolicy) :
    Except PatternError ProcColl :=
  if coll.procedures = [] ∨
      (invocationPolicy = coll.invocationPolicy ∧
       invocationPolicy ≠ .single) then
    .ok ⟨invocationPolicy, coll.roundRobinCounter,
      coll.procedures ++ [⟨registrant, matchingPolicy⟩]⟩
  else
    .error ⟨.procedureAlreadyExists⟩

/-- `ProcdureCollection::remove_procedure`: retain every entry whose
registrant id differs. -/
def ProcColl.removeProcedure (coll : ProcColl) (registrantId : ID) : ProcColl :=
  ⟨coll.invocationPolicy, coll.roundRobinCounter,
   coll.procedures.filter fun e => e.registrant ≠ registrantId⟩

/-- `ProcdureCollection::get_entry`: pick an entry according to the
invocation policy.  `Single`/`First` take the first, `Last` the last,
`Random` draws from `thread_rng` (embedded as the `entropy` argument), and
`RoundRobin` resets the cursor to zero if it is out of range, picks the entry
under the cursor and then increments it.  Returns the picked entry and the
updated collection (the cursor lives in a `RefCell`). -/
def ProcColl.getEntry (coll : ProcColl) (entropy : Nat) :
    Option ProcEntry × ProcColl :=
  match coll.invocationPolicy with
  | .single | .first => (coll.procedures.head?, coll)
  | .last => (coll.procedures.getLast?, coll)
  | .random =>
      (if coll.procedures = [] then none
       else coll.procedures.get? (entropy % coll.procedures.length), coll)
  | .roundRobin =>
      let cnt := if coll.procedures.length ≤ coll.roundRobinCounter then 0
        else coll.roundRobinCounter
      (coll.procedures.get? cnt,
       ⟨coll.invocationPolicy, cnt + 1, coll.procedures⟩)

/-- `RegistrationPatternNode<P>`. -/
inductive RegNode where
  | mk (edges : List (String × RegNode)) (connections : ProcColl)
      (pfxConnections : ProcColl) (nid : ID) (pfxId : ID)

/-- The `edges` field. -/
def RegNode.edges : RegNode → List (String × RegNode)
  | .mk e _ _ _ _ => e

/-- The `connections` field. -/
def RegNode.connections : RegNode → ProcColl
  | .mk _ c _ _ _ => c

/-- The `prefix_connections` field. -/
def RegNode.pfxConnections : RegNode → ProcColl
  | .mk _ _ p _ _ => p

/-- The `id` field. -/
def RegNode.nid : RegNode → ID
  | .mk _ _ _ i _ => i

/-- The `prefix_id` field. -/
def RegNode.pfxId : RegNode → ID
  | .mk _ _ _ _ p => p

/-- `RegistrationPatternNode::new` at freshness counter `c`. -/
def RegNode.new (c : Nat) : RegNode :=
  .mk [] ProcColl.empty ProcColl.empty c (c + 1)

/-- `HashMap::get` on a registration edge map. -/
def lookupRegEdge (edges : List (String × RegNode)) (k : String) :
    Option RegNode :=
  match edges with
  | [] => none
  | (k1, n) :: tl => if k1 = k then some n else lookupRegEdge tl k

/-- Write back the child stored under an existing key. -/
def setRegEdge (edges : List (String × RegNode)) (k : String) (n : RegNode) :
    List (String × RegNode) :=
  match edges with
  | [] => []
  | (k1, old) :: tl =>
      if k1 = k then (k1, n) :: tl else (k1, old) :: setRegEdge tl k n

/-- `RegistrationPatternNode::add_registration`: like the subscription
version, except insertion at the target node goes through `add_procedure`
and may fail with `ProcedureAlreadyExists`. -/
def addRegistration : List String → RegNode → ID → MatchingPolicy →
    InvocationPolicy → Nat → (Except PatternError ID) × RegNode × Nat
  | [], node, reg, mpol, ipol, c =>
      if mpol = .pfx then
        match node.pfxConnections.addProcedure reg mpol ipol with
        | .ok coll =>
            (.ok node.pfxId,
             .mk node.edges node.connections coll node.nid node.pfxId, c)
        | .error e => (.error e, node, c)
      else
        match node.connections.addProcedure reg mpol ipol with
        | .ok coll =>
            (.ok node.nid,
             .mk node.edges coll node.pfxConnections node.nid node.pfxId, c)
        | .error e => (.error e, node, c)
  | bit :: rest, node, reg, mpol, ipol, c =>
      if bit = "" ∧ mpol ≠ .wildcard then (.error ⟨.invalidURI⟩, node, c)
      else
        match lookupRegEdge node.edges bit with
        | some child =>
            let r := addRegistration rest child reg mpol ipol c
            (r.1, .mk (setRegEdge node.edges bit r.2.1) node.connections
              node.pfxConnections node.nid node.pfxId, r.2.2)
        | none =>
            let r := addRegistration rest (RegNode.new c) reg mpol ipol (c + 2)
            (r.1, .mk (node.edges ++ [(bit, r.2.1)]) node.connections
              node.pfxConnections node.nid node.pfxId, r.2.2)

/-- `RegistrationPatternNode::register_with`. -/
def registerWith (node : RegNode) (topic : String) (reg : ID)
    (mpol : MatchingPolicy) (ipol : InvocationPolicy) (c : Nat) :
    (Except PatternError ID) × RegNode × Nat :=
  match splitDots topic with
  | [] => (.error ⟨.invalidURI⟩, node, c)
  | initial :: rest =>
      match lookupRegEdge node.edges initial with
      | some child =>
          let r := addRegistration rest child reg mpol ipol c
          (r.1, .mk (setRegEdge node.edges initial r.2.1) node.connections
            node.pfxConnections node.nid node.pfxId, r.2.2)
      | none =>
          let r := addRegistration rest (RegNode.new c) reg mpol ipol (c + 2)
          (r.1, .mk (node.edges ++ [(initial, r.2.1)]) node.connections
            node.pfxConnections node.nid node.pfxId, r.2.2)

/-- `RegistrationPatternNode::remove_registration`. -/
def removeRegistration : List String → RegNode → ID → Bool →
    (Except PatternError ID) × RegNode
  | [], node, regId, isPfx =>
      if isPfx then
        (.ok node.pfxId,
         .mk node.edges node.connections (node.pfxConnections.removeProcedure regId)
           node.nid node.pfxId)
      else
        (.ok node.nid,
         .mk node.edges (node.connections.removeProcedure regId)
           node.pfxConnections node.nid node.pfxId)
  | bit :: rest, node, regId, isPfx =>
      match lookupRegEdge node.edges bit with
      | some child =>
          let r := removeRegistration rest child regId isPfx
          (r.1, .mk (setRegEdge node.edges bit r.2) node.connections
            node.pfxConnections node.nid node.pfxId)
      | none => (.error ⟨.invalidURI⟩, node)

/-- `RegistrationPatternNode::unregister_with`. -/
def unregisterWith (node : RegNode) (topic : String) (regId : ID)
    (isPfx : Bool) : (Except PatternError ID) × RegNode :=
  removeRegistration (splitDots topic) node regId isPfx

/-- `RegistrationPatternNode::find_registrant` together with its helper
`recurse`: with the uri fully consumed, try the exact collection then the
prefix collection; otherwise `recurse` tries the child labelled with the next
segment first and the wildcard (empty-string) child second, and on failure
falls back to the prefix collection at this node.  `get_entry` cursor updates
(`RefCell` interior mutability) are threaded through the returned node. -/
def findRegistrant : List String → RegNode → Nat →
    Option (ProcEntry × ID) × RegNode
  | [], node, entropy =>
      let r1 := node.connections.getEntry entropy
      match r1.1 with
      | some e =>
          (some (e, node.nid),
           .mk node.edges r1.2 node.pfxConnections node.nid node.pfxId)
      | none =>
          let r2 := node.pfxConnections.getEntry entropy
          match r2.1 with
          | some e =>
              (some (e, node.pfxId),
               .mk node.edges r1.2 r2.2 node.nid node.pfxId)
          | none =>
              (none, .mk node.edges r1.2 r2.2 node.nid node.pfxId)
  | seg :: rest, node, entropy =>
      -- `recurse`, first half: the literal child
      let lit : Option (ProcEntry × ID) × RegNode :=
        match lookupRegEdge node.edges seg with
        | some child =>
            let r := findRegistrant rest child entropy
            (r.1, .mk (setRegEdge node.edges seg r.2) node.connections
              node.pfxConnections node.nid node.pfxId)
        | none => (none, node)
      match lit.1 with
      | some hit => (some hit, lit.2)
      | none =>
          -- `recurse`, second half: the wildcard child
          let node1 := lit.2
          let wld : Option (ProcEntry × ID) × RegNode :=
            match lookupRegEdge node1.edges "" with
            | some child =>
                let r := findRegistrant rest child entropy
                (r.1, .mk (setRegEdge node1.edges "" r.2) node1.connections
                  node1.pfxConnections node1.nid node1.pfxId)
            | none => (none, node1)
          match wld.1 with
          | some hit => (some hit, wld.2)
          | none =>
              -- prefix fallback at the current node
              let node2 := wld.2
              let r2 := node2.pfxConnections.getEntry entropy
              match r2.1 with
              | some e =>
                  (some (e, node2.pfxId),
                   .mk node2.edges node2.connections r2.2 node2.nid node2.pfxId)
              | none =>
                  (none, .mk node2.edges node2.connections r2.2 node2.nid node2.pfxId)

/-- `RegistrationPatternNode::get_registrant_for`: resolve one callee for a
called procedure, or `NoSuchProcedure`. -/
def getRegistrantFor (node : RegNode) (procedure : String) (entropy : Nat) :
    (Except PatternError (ID × ID × MatchingPolicy)) × RegNode :=
  let r := findRegistrant (splitDots procedure) node entropy
  match r.1 with
  | some (e, pid) => (.ok (e.registrant, pid, e.policy), r.2)
  | none => (.error ⟨.noSuchProcedure⟩, r.2)

end Wampire

namespace Wampire

/-! ## Realm state and the router session handler (`src/router/mod.rs`,
`src/router/pubsub/mod.rs`, `src/router/rpc/mod.rs`)

Connections are identified by their `ConnectionInfo::id`.  A handler's reply
traffic is returned as a list of `(target connection id, message)` pairs. -/

/-- `HashMap::get` on an id-keyed uri table. -/
def lookupAssoc (m : List (ID × String × Bool)) (k : ID) :
    Option (String × Bool) :=
  match m with
  | [] => none
  | (k1, v) :: tl => if k1 = k then some v else lookupAssoc tl k

/-- `HashMap::insert` on an id-keyed uri table: replace or append. -/
def insertAssoc (m : List (ID × String × Bool)) (k : ID) (v : String × Bool) :
    List (ID × String × Bool) :=
  match m with
  | [] => [(k, v)]
  | (k1, v1) :: tl =>
      if k1 = k then (k1, v) :: tl else (k1, v1) :: insertAssoc tl k v

/-- `SubscriptionManager` (`src/router/mod.rs`). -/
structure SubMgr where
  subscriptions : SubNode
  subIdsToUris : List (ID × String × Bool)

/-- `RegistrationManager` (`src/router/mod.rs`): `active_calls` maps an
invocation id to `(caller request id, caller connection)`. -/
structure RegMgr where
  registrations : RegNode
  regIdsToUris : List (ID × String × Bool)
  activeCalls : List (ID × ID × ID)

/-- `Realm` (`src/router/mod.rs`). -/
structure Realm where
  subscriptionManager : SubMgr
  registrationManager : RegMgr
  connections : List ID

/-- The handler-local state of `ConnectionHandler` (`src/router/mod.rs`). -/
structure ConnHandler where
  connId : ID
  subscribedTopics : List ID
  registeredProcedures : List ID

/-- `ConnectionHandler::handle_subscribe` (`src/router/pubsub/mod.rs`),
restricted to its effect on the realm's subscription manager, the handler's
`subscribed_topics` and the reply sent: on success the returned topic id is
pushed, recorded in `subscription_ids_to_uris` (with its `is_prefix` flag)
and acknowledged with `Subscribed`; on failure an `Error(Subscribe, …)` reply
carries the pattern error's reason. -/
def handleSubscribe (mgr : SubMgr) (topics : List ID) (connId requestId : ID)
    (pol : MatchingPolicy) (topic : String) (c : Nat) :
    SubMgr × List ID × Nat × (ID × Message) :=
  let r := subscribeWith mgr.subscriptions topic connId pol c
  match r.1 with
  | .error e =>
      (⟨r.2.1, mgr.subIdsToUris⟩, topics, r.2.2,
       (connId, .error .subscribe requestId [] e.reason none none))
  | .ok topicId =>
      (⟨r.2.1, insertAssoc mgr.subIdsToUris topicId (topic, pol = .pfx)⟩,
       topics ++ [topicId], r.2.2, (connId, .subscribed requestId topicId))

/-- `ConnectionHandler::handle_unsubscribe` (`src/router/pubsub/mod.rs`):
unknown ids answer `Error(Unsubscribe, NoSuchSubscription)`; otherwise the
recorded uri is removed from the trie for this connection, the id is dropped
from `subscribed_topics`, and `Unsubscribed` is sent.  Note that
`subscription_ids_to_uris` is left untouched. -/
def handleUnsubscribe (mgr : SubMgr) (topics : List ID)
    (connId requestId topicId : ID) : SubMgr × List ID × (ID × Message) :=
  match lookupAssoc mgr.subIdsToUris topicId with
  | none =>
      (mgr, topics,
       (connId, .error .unsubscribe requestId [] .noSuchSubscription none none))
  | some (uri, isPfx) =>
      let r := unsubscribeWith mgr.subscriptions uri connId isPfx
      match r.1 with
      | .error e =>
          (⟨r.2, mgr.subIdsToUris⟩, topics,
           (connId, .error .unsubscribe requestId [] e.reason none none))
      | .ok tid =>
          (⟨r.2, mgr.subIdsToUris⟩, topics.filter fun i => i ≠ tid,
           (connId, .unsubscribed requestId))

/-- `ConnectionHandler::handle_publish` (`src/router/pubsub/mod.rs`): iterate
the matching subscriptions; each subscriber other than the publisher receives
an `Event` carrying that subscription's id and, when the subscription's
policy is not strict, the concrete topic in its details; when `acknowledge`
is set a `Published` reply follows.  `publication_id` (`random_id()`) is the
`pubId` argument. -/
def handlePublish (realm : Realm) (connId requestId pubId : ID) (ack : Bool)
    (topic : String) (args : Option ValList) (kwargs : Option Dict) :
    List (ID × Message) :=
  ((filterTopic realm.subscriptionManager.subscriptions topic).filterMap
    fun t =>
      if t.1 ≠ connId then
        some (t.1, .event t.2.1 pubId
          ⟨none, none, if t.2.2 = .strict then none else some ⟨topic⟩⟩
          args kwargs)
      else none) ++
  (if ack then [(connId, .published requestId pubId)] else [])

/-- `ConnectionHandler::remove` (`src/router/mod.rs`), reached from
`on_close` and `terminate_connection`: for every recorded subscription and
registration id of this handler, look up its uri and remove this connection's
entries from the respective trie (errors discarded with `.ok()`), then drop
the connection from the realm's list.  No message of any kind is sent, and
`active_calls` is not consulted. -/
def removeHandler (h : ConnHandler) (realm : Realm) :
    Realm × List (ID × Message) :=
  let subs := h.subscribedTopics.foldl
    (fun trie sid =>
      match lookupAssoc realm.subscriptionManager.subIdsToUris sid with
      | some (uri, isPfx) => (unsubscribeWith trie uri h.connId isPfx).2
      | none => trie)
    realm.subscriptionManager.subscriptions
  let regs := h.registeredProcedures.foldl
    (fun trie rid =>
      match lookupAssoc realm.registrationManager.regIdsToUris rid with
      | some (uri, isPfx) => (unregisterWith trie uri h.connId isPfx).2
      | none => trie)
    realm.registrationManager.registrations
  (⟨⟨subs, realm.subscriptionManager.subIdsToUris⟩,
    ⟨regs, realm.registrationManager.regIdsToUris,
     realm.registrationManager.activeCalls⟩,
    realm.connections.filter fun i => i ≠ h.connId⟩, [])

end Wampire

namespace Wampire

instance {ε α : Type} [DecidableEq ε] [DecidableEq α] :
    DecidableEq (Except ε α) := fun x y =>
  match x, y with
  | .ok a, .ok b =>
      if h : a = b then .isTrue (by rw [h])
      else .isFalse fun hc => h (Except.ok.inj hc)
  | .error a, .error b =>
      if h : a = b then .isTrue (by rw [h])
      else .isFalse fun hc => h (Except.error.inj hc)
  | .ok _, .error _ => .isFalse fun hc => Except.noConfusion hc
  | .error _, .ok _ => .isFalse fun hc => Except.noConfusion hc

end Wampire

namespace Wampire

/-! ## Concrete scenarios

The four-subscription scenario of the spec's trie properties, built once with
the wildcard pattern the repository's own tests use
(`com.example.test..topic`) and once with the wildcard pattern the spec text
states (`com.example..topic`).  Freshness counters start at 0: the root draws
ids 0/1, each further node the next two. -/

/-- An empty subscription trie root. -/
def subTrieRoot : SubNode := SubNode.new 0

/-- Subscribe connection 1 to `com.example.test..topic` (wildcard). -/
def subStepW := subscribeWith subTrieRoot "com.example.test..topic" 1 .wildcard 2

/-- Subscribe connection 2 to `com.example.test.specific.topic` (strict). -/
def subStepS :=
  subscribeWith subStepW.2.1 "com.example.test.specific.topic" 2 .strict subStepW.2.2

/-- Subscribe connection 3 to `com.example` (prefix). -/
def subStepPA := subscribeWith subStepS.2.1 "com.example" 3 .pfx subStepS.2.2

/-- Subscribe connection 4 to `com.example.test` (prefix). -/
def subStepPB := subscribeWith subStepPA.2.1 "com.example.test" 4 .pfx subStepPA.2.2

/-- Subscribe connection 1 to `com.example..topic` (wildcard), the pattern as
literally written in the spec. -/
def subStepWx := subscribeWith subTrieRoot "com.example..topic" 1 .wildcard 2

/-- Strict subscription on top of the spec-literal wildcard. -/
def subStepSx :=
  subscribeWith subStepWx.2.1 "com.example.test.specific.topic" 2 .strict subStepWx.2.2

/-- Prefix subscription `com.example`, spec-literal scenario. -/
def subStepPAx := subscribeWith subStepSx.2.1 "com.example" 3 .pfx subStepSx.2.2

/-- Prefix subscription `com.example.test`, spec-literal scenario. -/
def subStepPBx := subscribeWith subStepPAx.2.1 "com.example.test" 4 .pfx subStepPAx.2.2

/-- An empty registration trie root. -/
def regTrieRoot : RegNode := RegNode.new 0

/-- Register callee 1 on `com.example.test..topic` (wildcard). -/
def regStepW := registerWith regTrieRoot "com.example.test..topic" 1 .wildcard .single 2

/-- Register callee 2 on `com.example.test.specific.topic` (strict). -/
def regStepS :=
  registerWith regStepW.2.1 "com.example.test.specific.topic" 2 .strict .single regStepW.2.2

/-- Register callee 3 on `com.example` (prefix). -/
def regStepPA := registerWith regStepS.2.1 "com.example" 3 .pfx .single regStepS.2.2

/-- Register callee 4 on `com.example.test` (prefix). -/
def regStepPB := registerWith regStepPA.2.1 "com.example.test" 4 .pfx .single regStepPA.2.2

/-- Register callee 1 on `com.example..topic` (wildcard), the pattern as
literally written in the spec. -/
def regStepWx := registerWith regTrieRoot "com.example..topic" 1 .wildcard .single 2

/-- Strict registration, spec-literal scenario. -/
def regStepSx :=
  registerWith regStepWx.2.1 "com.example.test.specific.topic" 2 .strict .single regStepWx.2.2

/-- Prefix registration `com.example`, spec-literal scenario. -/
def regStepPAx := registerWith regStepSx.2.1 "com.example" 3 .pfx .single regStepSx.2.2

/-- Prefix registration `com.example.test`, spec-literal scenario. -/
def regStepPBx := registerWith regStepPAx.2.1 "com.example.test" 4 .pfx .single regStepPAx.2.2

/-- **C3, counterexample.**  With the spec's own pattern list — the wildcard
pattern being `com.example..topic` — iterating the subscription trie for the
published topic `com.example.test.specific.topic` yields three matches, not
the four the claim states: a four-segment wildcard pattern cannot match a
five-segment topic, so only the two prefix subscribers and the strict
subscriber are produced. -/
theorem C3_counterexample :
    (filterTopic subStepPBx.2.1 "com.example.test.specific.topic").length = 3 ∧
    filterTopic subStepPBx.2.1 "com.example.test.specific.topic" =
      [(3, 5, .pfx), (4, 11, .pfx), (2, 14, .strict)] := by
  constructor <;> decide

/-- **C3 (amended).**  With subscriptions for `com.example.test..topic`
(wildcard — the pattern the repository's `adding_patterns` test uses, which
does match the five-segment topic), `com.example.test.specific.topic`
(strict), `com.example` (prefix) and `com.example.test` (prefix), iterating
the trie for `com.example.test.specific.topic` yields exactly four matches,
no duplicates, ordered prefix(`com.example`), prefix(`com.example.test`),
wildcard, strict, each carrying the subscription id returned at subscribe
time; and `handle_publish` never sends an `Event` to the publishing
connection itself. -/
theorem C3_match_order_amended :
    (∃ wId sId paId pbId,
      subStepW.1 = .ok wId ∧ subStepS.1 = .ok sId ∧
      subStepPA.1 = .ok paId ∧ subStepPB.1 = .ok pbId ∧
      filterTopic subStepPB.2.1 "com.example.test.specific.topic" =
        [(3, paId, .pfx), (4, pbId, .pfx), (1, wId, .wildcard),
         (2, sId, .strict)]) ∧
    ∀ (realm : Realm) (connId requestId pubId : ID) (ack : Bool)
      (topic : String) (args : Option ValList) (kwargs : Option Dict),
      (handlePublish realm connId requestId pubId ack topic args kwargs).all
        (fun t => match t.2 with
          | .event _ _ _ _ _ => t.1 != connId
          | _ => true) = true := by
  constructor
  · exact ⟨10, 14, 5, 7, by decide, by decide, by decide, by decide, by decide⟩
  · intro realm connId requestId pubId ack topic args kwargs
    simp only [handlePublish, List.all_append, Bool.and_eq_true, List.all_eq_true]
    constructor
    · intro t ht
      obtain ⟨s, _, hsome⟩ := List.mem_filterMap.mp ht
      by_cases h : s.1 ≠ connId
      · rw [if_pos h] at hsome
        obtain rfl := Option.some.inj hsome
        simpa using h
      · rw [if_neg h] at hsome
        exact absurd hsome (by simp)
    · cases ack <;> simp

/-- **C4, counterexample.**  With the spec's own pattern list — the wildcard
pattern being `com.example..topic` — a call to
`com.example.test.another.topic` does not resolve to the wildcard
registration (callee 1, id 8): the four-segment wildcard pattern cannot match
the five-segment procedure, and the lookup falls back to the
`com.example.test` prefix registration (callee 4, id 11). -/
theorem C4_counterexample :
    regStepWx.1 = .ok 8 ∧ regStepPBx.1 = .ok 11 ∧
    (getRegistrantFor regStepPBx.2.1 "com.example.test.another.topic" 0).1 =
      .ok (4, 11, .pfx) ∧
    ((4, 11, MatchingPolicy.pfx) : ID × ID × MatchingPolicy) ≠
      (1, 8, MatchingPolicy.wildcard) := by
  refine ⟨by decide, by decide, by decide, by decide⟩

/-- **C4 (amended).**  With registrations for `com.example.test..topic`
(wildcard — the pattern the repository's `adding_patterns` test uses),
`com.example.test.specific.topic` (strict), `com.example` (prefix) and
`com.example.test` (prefix), the exact-match lookup resolves
`com.example.test.specific.topic` to the strict registration,
`com.example.test.another.topic` to the wildcard registration,
`com.example.test.another` to the `com.example.test` prefix registration and
`com.example` to the `com.example` prefix registration
(exact > wildcard > prefix ancestor). -/
theorem C4_rpc_precedence_amended :
    ∃ wId sId paId pbId,
      regStepW.1 = .ok wId ∧ regStepS.1 = .ok sId ∧
      regStepPA.1 = .ok paId ∧ regStepPB.1 = .ok pbId ∧
      (getRegistrantFor regStepPB.2.1 "com.example.test.specific.topic" 0).1 =
        .ok (2, sId, .strict) ∧
      (getRegistrantFor regStepPB.2.1 "com.example.test.another.topic" 0).1 =
        .ok (1, wId, .wildcard) ∧
      (getRegistrantFor regStepPB.2.1 "com.example.test.another" 0).1 =
        .ok (4, pbId, .pfx) ∧
      (getRegistrantFor regStepPB.2.1 "com.example" 0).1 =
        .ok (3, paId, .pfx) :=
  ⟨10, 14, 5, 7, by decide, by decide, by decide, by decide,
   by decide, by decide, by decide, by decide⟩

/-- The disconnecting callee of the C1 scenario: connection 1, with no
subscriptions or registrations of its own. -/
def c1Handler : ConnHandler := ⟨1, [], []⟩

/-- The C1 realm: caller 9 has an outstanding call (request id 7) that was
forwarded to callee 1 as invocation 42, so `active_calls` holds
`42 ↦ (7, 9)`; both connections are attached. -/
def c1Realm : Realm :=
  ⟨⟨SubNode.new 0, []⟩, ⟨RegNode.new 2, [], [(42, 7, 9)]⟩, [1, 9]⟩

/-- **C1.**  `ConnectionHandler::remove` does not send `Error(Call,
caller_request_id, NetworkFailure)` to the caller of an outstanding
invocation whose callee disconnects, and it does not destroy the
`active_calls` entry: in the concrete scenario the disconnecting callee is
removed from the realm's connection list, yet no message at all is emitted
and the outstanding-invocation record survives; in general `remove` emits no
messages and never touches `active_calls`. -/
theorem C1_remove_ignores_active_calls :
    ((removeHandler c1Handler c1Realm).2 = [] ∧
     (removeHandler c1Handler c1Realm).1.registrationManager.activeCalls =
       [(42, 7, 9)] ∧
     (removeHandler c1Handler c1Realm).1.connections = [9]) ∧
    ∀ (h : ConnHandler) (realm : Realm),
      (removeHandler h realm).2 = [] ∧
      (removeHandler h realm).1.registrationManager.activeCalls =
        realm.registrationManager.activeCalls :=
  ⟨⟨rfl, by decide, by decide⟩, fun h realm => ⟨rfl, rfl⟩⟩

end Wampire

namespace Wampire

/-- **C6.**  `ProcdureCollection::add_procedure`: insertion succeeds exactly
when the procedure list is empty or the new invocation policy equals the
stored one and is not `Single`; on success the entry is appended and the new
policy recorded; otherwise the result is `ProcedureAlreadyExists` and the
collection is unchanged.  In particular a second `Single` callee on an
occupied pattern fails while two `RoundRobin` callees coexist. -/
theorem C6_add_procedure (coll : ProcColl) (reg : ID) (mp : MatchingPolicy)
    (ip : InvocationPolicy) :
    ((∃ c2, coll.addProcedure reg mp ip = .ok c2) ↔
      (coll.procedures = [] ∨
       (ip = coll.invocationPolicy ∧ ip ≠ .single))) ∧
    (∀ c2, coll.addProcedure reg mp ip = .ok c2 →
      c2 = ⟨ip, coll.roundRobinCounter, coll.procedures ++ [⟨reg, mp⟩]⟩) ∧
    (¬(coll.procedures = [] ∨
       (ip = coll.invocationPolicy ∧ ip ≠ .single)) →
      coll.addProcedure reg mp ip = .error ⟨.procedureAlreadyExists⟩) ∧
    (ProcColl.addProcedure ⟨.single, 0, [⟨1, .strict⟩]⟩ 2 .strict .single =
      .error ⟨.procedureAlreadyExists⟩) ∧
    (∃ c1 c2, ProcColl.empty.addProcedure 1 .strict .roundRobin = .ok c1 ∧
      c1.addProcedure 2 .strict .roundRobin = .ok c2 ∧
      c2.procedures.length = 2) := by
  refine ⟨?_, ?_, ?_, by decide, ?_⟩
  · by_cases h : coll.procedures = [] ∨
        (ip = coll.invocationPolicy ∧ ip ≠ .single)
    · simp [ProcColl.addProcedure, h]
    · simp [ProcColl.addProcedure, h]
  · intro c2 hc2
    by_cases h : coll.procedures = [] ∨
        (ip = coll.invocationPolicy ∧ ip ≠ .single)
    · simpa [ProcColl.addProcedure, h, eq_comm] using hc2
    · simp [ProcColl.addProcedure, h] at hc2
  · intro h
    simp [ProcColl.addProcedure, h]
  · exact ⟨⟨.roundRobin, 0, [⟨1, .strict⟩]⟩,
      ⟨.roundRobin, 0, [⟨1, .strict⟩, ⟨2, .strict⟩]⟩,
      by decide, by decide, by decide⟩

/-- Witness for C6 at concrete inputs. -/
theorem C6_add_procedure_witness :
    ProcColl.addProcedure ⟨.single, 0, [⟨1, .strict⟩]⟩ 2 .strict .roundRobin =
      .error ⟨.procedureAlreadyExists⟩ ∧
    (⟨.single, 0, [⟨1, .strict⟩]⟩ : ProcColl) =
      ⟨.single, ProcColl.empty.roundRobinCounter,
       ProcColl.empty.procedures ++ [⟨1, .strict⟩]⟩ :=
  ⟨(C6_add_procedure ⟨.single, 0, [⟨1, .strict⟩]⟩ 2 .strict .roundRobin).2.2.1
      (by decide),
   (C6_add_procedure ProcColl.empty 1 .strict .single).2.1
      ⟨.single, 0, [⟨1, .strict⟩]⟩ (by decide)⟩

/-- **C7.**  `ProcdureCollection::get_entry` under `RoundRobin`: with three
callees and cursor 0, four successive selections return the first, second,
third and again the first callee; and in general, when the cursor is at most
the list length and the list is non-empty, the pick is the entry at cursor
modulo length and the new cursor is that index plus one. -/
theorem C7_round_robin (a b c : ProcEntry) (entropy : Nat) :
    (let coll : ProcColl := ⟨.roundRobin, 0, [a, b, c]⟩
     let s1 := coll.getEntry entropy
     let s2 := s1.2.getEntry entropy
     let s3 := s2.2.getEntry entropy
     let s4 := s3.2.getEntry entropy
     s1.1 = some a ∧ s2.1 = some b ∧ s3.1 = some c ∧ s4.1 = some a) ∧
    ∀ coll : ProcColl, coll.invocationPolicy = .roundRobin →
      coll.roundRobinCounter ≤ coll.procedures.length →
      coll.procedures ≠ [] →
      (coll.getEntry entropy).1 =
        coll.procedures.get? (coll.roundRobinCounter % coll.procedures.length) ∧
      (coll.getEntry entropy).2.roundRobinCounter =
        coll.roundRobinCounter % coll.procedures.length + 1 := by
  constructor
  · simp [ProcColl.getEntry]
  · intro coll hpol hle hne
    have hlen : 0 < coll.procedures.length := List.length_pos.mpr hne
    rcases Nat.lt_or_ge coll.roundRobinCounter coll.procedures.length with h | h
    · have hmod : coll.roundRobinCounter % coll.procedures.length =
          coll.roundRobinCounter := Nat.mod_eq_of_lt h
      simp [ProcColl.getEntry, hpol, hmod, Nat.not_le.mpr h]
    · have heq : coll.roundRobinCounter = coll.procedures.length :=
        le_antisymm hle h
      simp [ProcColl.getEntry, hpol, heq, Nat.mod_self]

/-- Witness for C7 at concrete inputs. -/
theorem C7_round_robin_witness :
    (ProcColl.getEntry ⟨.roundRobin, 2, [⟨10, .strict⟩, ⟨20, .strict⟩]⟩ 0).1 =
      some ⟨10, .strict⟩ ∧
    (ProcColl.getEntry ⟨.roundRobin, 2, [⟨10, .strict⟩, ⟨20, .strict⟩]⟩
      0).2.roundRobinCounter = 1 := by
  have h := (C7_round_robin ⟨10, .strict⟩ ⟨20, .strict⟩ ⟨30, .strict⟩ 0).2
    ⟨.roundRobin, 2, [⟨10, .strict⟩, ⟨20, .strict⟩]⟩
    (by decide) (by decide) (by decide)
  exact ⟨h.1.trans (by decide), h.2.trans (by decide)⟩

/-- **C8.**  The `serialize_with_args!` tail encoding: with both `args` and
`kwargs` absent nothing is appended; with only `kwargs` present an empty list
sentinel precedes the kwargs dict; with only `args` present just the args
list is appended; with both present args then kwargs are appended — and every
message variant carrying the optional tail (`Error`, `Publish`, `Event`,
`Call`, `Invocation`, `Yield`, `Result`) serialises through exactly this
rule. -/
theorem C8_serialize_with_args (args : ValList) (kwargs : Dict)
    (items : List WireVal) (a2 : Option ValList) (k2 : Option Dict)
    (ty : ErrorType) (i g : ID) (d : Dict) (r : Reason)
    (so : PublishOptions) (u : URI) (ed : EventDetails) (co : CallOptions)
    (vd : InvocationDetails) (yo : YieldOptions) (rd : ResultDetails) :
    (serializeWithArgs none none items = items) ∧
    (serializeWithArgs none (some kwargs) items =
      items ++ [.varr [], .vmap (encodeDict kwargs)]) ∧
    (serializeWithArgs (some args) none items =
      items ++ [.varr (encodeList args)]) ∧
    (serializeWithArgs (some args) (some kwargs) items =
      items ++ [.varr (encodeList args), .vmap (encodeDict kwargs)]) ∧
    (encodeMessage (.error ty i d r a2 k2) =
      .varr (serializeWithArgs a2 k2
        [.vuint 8, .vuint ty.toTag, .vuint i, .vmap (encodeDict d),
         .vstr r.getString])) ∧
    (encodeMessage (.publish i so u a2 k2) =
      .varr (serializeWithArgs a2 k2
        [.vuint 16, .vuint i, encPublishOptions so, .vstr u.uri])) ∧
    (encodeMessage (.event i g ed a2 k2) =
      .varr (serializeWithArgs a2 k2
        [.vuint 36, .vuint i, .vuint g, encEventDetails ed])) ∧
    (encodeMessage (.call i co u a2 k2) =
      .varr (serializeWithArgs a2 k2
        [.vuint 48, .vuint i, encCallOptions co, .vstr u.uri])) ∧
    (encodeMessage (.invocation i g vd a2 k2) =
      .varr (serializeWithArgs a2 k2
        [.vuint 68, .vuint i, .vuint g, encInvocationDetails vd])) ∧
    (encodeMessage (.yield i yo a2 k2) =
      .varr (serializeWithArgs a2 k2
        [.vuint 70, .vuint i, encYieldOptions yo])) ∧
    (encodeMessage (.result i rd a2 k2) =
      .varr (serializeWithArgs a2 k2
        [.vuint 50, .vuint i, encResultDetails rd])) := by
  refine ⟨rfl, rfl, rfl, rfl, rfl, rfl, rfl, rfl, rfl, rfl, rfl⟩

end Wampire

namespace Wampire

/-- Does every segment of a path have an edge in the registration trie? -/
def regPathExists : List String → RegNode → Bool
  | [], _ => true
  | bit :: rest, node =>
      match lookupRegEdge node.edges bit with
      | some child => regPathExists rest child
      | none => false

/-- The procedure list at the end of a path (prefix or exact collection). -/
def regProcsAt : List String → RegNode → Bool → List ProcEntry
  | [], node, isPfx =>
      if isPfx then node.pfxConnections.procedures
      else node.connections.procedures
  | bit :: rest, node, isPfx =>
      match lookupRegEdge node.edges bit with
      | some child => regProcsAt rest child isPfx
      | none => []

/-- The node/prefix id at the end of a path in the registration trie. -/
def regIdAt : List String → RegNode → Bool → ID
  | [], node, isPfx => if isPfx then node.pfxId else node.nid
  | bit :: rest, node, isPfx =>
      match lookupRegEdge node.edges bit with
      | some child => regIdAt rest child isPfx
      | none => 0

theorem lookupEdge_setEdge (edges : List (String × SubNode)) (k : String)
    (child n : SubNode) (h : lookupEdge edges k = some child) :
    lookupEdge (setEdge edges k n) k = some n := by
  induction edges with
  | nil => simp [lookupEdge] at h
  | cons e tl ih =>
      obtain ⟨k1, v⟩ := e
      by_cases hk : k1 = k
      · simp [lookupEdge, setEdge, hk]
      · simp only [lookupEdge, setEdge, if_neg hk] at h ⊢
        exact ih h

theorem lookupRegEdge_setRegEdge (edges : List (String × RegNode)) (k : String)
    (child n : RegNode) (h : lookupRegEdge edges k = some child) :
    lookupRegEdge (setRegEdge edges k n) k = some n := by
  induction edges with
  | nil => simp [lookupRegEdge] at h
  | cons e tl ih =>
      obtain ⟨k1, v⟩ := e
      by_cases hk : k1 = k
      · simp [lookupRegEdge, setRegEdge, hk]
      · simp only [lookupRegEdge, setRegEdge, if_neg hk] at h ⊢
        exact ih h

theorem setEdge_lookup_self (edges : List (String × SubNode)) (k : String)
    (child : SubNode) (h : lookupEdge edges k = some child) :
    setEdge edges k child = edges := by
  induction edges with
  | nil => rfl
  | cons e tl ih =>
      obtain ⟨k1, v⟩ := e
      by_cases hk : k1 = k
      · simp only [lookupEdge, if_pos hk] at h
        simp [setEdge, hk, Option.some.inj h]
      · simp only [lookupEdge, if_neg hk] at h
        simp [setEdge, hk, ih h]

theorem setRegEdge_lookup_self (edges : List (String × RegNode)) (k : String)
    (child : RegNode) (h : lookupRegEdge edges k = some child) :
    setRegEdge edges k child = edges := by
  induction edges with
  | nil => rfl
  | cons e tl ih =>
      obtain ⟨k1, v⟩ := e
      by_cases hk : k1 = k
      · simp only [lookupRegEdge, if_pos hk] at h
        simp [setRegEdge, hk, Option.some.inj h]
      · simp only [lookupRegEdge, if_neg hk] at h
        simp [setRegEdge, hk, ih h]

theorem removeSubscription_spec (bits : List String) (node : SubNode)
    (subId : ID) (isPfx : Bool) :
    (subPathExists bits node = true →
      (removeSubscription bits node subId isPfx).1 =
        .ok (subIdAt bits node isPfx) ∧
      subEntriesAt bits (removeSubscription bits node subId isPfx).2 isPfx =
        (subEntriesAt bits node isPfx).filter
          (fun e => e.subscriber ≠ subId)) ∧
    (subPathExists bits node = false →
      removeSubscription bits node subId isPfx = (.error ⟨.invalidURI⟩, node)) := by
  induction bits generalizing node with
  | nil =>
      refine ⟨fun _ => ?_, fun h => by simp [subPathExists] at h⟩
      obtain ⟨edges, conns, pfxConns, i, p⟩ := node
      cases isPfx <;>
        simp [removeSubscription, subEntriesAt, subIdAt, SubNode.connections,
          SubNode.pfxConnections, SubNode.nid, SubNode.pfxId]
  | cons bit rest ih =>
      obtain ⟨edges, conns, pfxConns, i, p⟩ := node
      cases hedge : lookupEdge edges bit with
      | none =>
          refine ⟨fun h => ?_, fun _ => ?_⟩
          · simp [subPathExists, SubNode.edges, hedge] at h
          · simp [removeSubscription, SubNode.edges, hedge]
      | some child =>
          refine ⟨fun h => ?_, fun h => ?_⟩
          · have hpath : subPathExists rest child = true := by
              simpa [subPathExists, SubNode.edges, hedge] using h
            obtain ⟨h1, h2⟩ := (ih child).1 hpath
            have hlook := lookupEdge_setEdge edges bit child
              (removeSubscription rest child subId isPfx).2 hedge
            constructor
            · simpa [removeSubscription, SubNode.edges, hedge, subIdAt] using h1
            · simpa [removeSubscription, subEntriesAt, SubNode.edges,
                SubNode.connections, SubNode.pfxConnections, SubNode.nid,
                SubNode.pfxId, hedge, hlook] using h2
          · have hpath : subPathExists rest child = false := by
              simpa [subPathExists, SubNode.edges, hedge] using h
            have h3 := (ih child).2 hpath
            simp [removeSubscription, SubNode.edges, SubNode.connections,
              SubNode.pfxConnections, SubNode.nid, SubNode.pfxId, hedge, h3,
              setEdge_lookup_self edges bit child hedge]

theorem removeRegistration_spec (bits : List String) (node : RegNode)
    (regId : ID) (isPfx : Bool) :
    (regPathExists bits node = true →
      (removeRegistration bits node regId isPfx).1 =
        .ok (regIdAt bits node isPfx) ∧
      regProcsAt bits (removeRegistration bits node regId isPfx).2 isPfx =
        (regProcsAt bits node isPfx).filter
          (fun e => e.registrant ≠ regId)) ∧
    (regPathExists bits node = false →
      removeRegistration bits node regId isPfx = (.error ⟨.invalidURI⟩, node)) := by
  induction bits generalizing node with
  | nil =>
      refine ⟨fun _ => ?_, fun h => by simp [regPathExists] at h⟩
      obtain ⟨edges, conns, pfxConns, i, p⟩ := node
      cases isPfx <;>
        simp [removeRegistration, regProcsAt, regIdAt, RegNode.connections,
          RegNode.pfxConnections, RegNode.nid, RegNode.pfxId,
          ProcColl.removeProcedure]
  | cons bit rest ih =>
      obtain ⟨edges, conns, pfxConns, i, p⟩ := node
      cases hedge : lookupRegEdge edges bit with
      | none =>
          refine ⟨fun h => ?_, fun _ => ?_⟩
          · simp [regPathExists, RegNode.edges, hedge] at h
          · simp [removeRegistration, RegNode.edges, hedge]
      | some child =>
          refine ⟨fun h => ?_, fun h => ?_⟩
          · have hpath : regPathExists rest child = true := by
              simpa [regPathExists, RegNode.edges, hedge] using h
            obtain ⟨h1, h2⟩ := (ih child).1 hpath
            have hlook := lookupRegEdge_setRegEdge edges bit child
              (removeRegistration rest child regId isPfx).2 hedge
            constructor
            · simpa [removeRegistration, RegNode.edges, hedge, regIdAt] using h1
            · simpa [removeRegistration, regProcsAt, RegNode.edges,
                RegNode.connections, RegNode.pfxConnections, RegNode.nid,
                RegNode.pfxId, hedge, hlook] using h2
          · have hpath : regPathExists rest child = false := by
              simpa [regPathExists, RegNode.edges, hedge] using h
            have h3 := (ih child).2 hpath
            simp [removeRegistration, RegNode.edges, RegNode.connections,
              RegNode.pfxConnections, RegNode.nid, RegNode.pfxId, hedge, h3,
              setRegEdge_lookup_self edges bit child hedge]

end Wampire

namespace Wampire

/-- A trie where connection 1 subscribed twice to the same pattern `a`. -/
def dblSubNode : SubNode :=
  .mk [("a", .mk [] [⟨1, .strict⟩, ⟨1, .strict⟩] [] 2 3)] [] [] 0 1

/-- A registration trie where connection 1 registered twice on pattern `a`
(round-robin shared registration). -/
def dblRegNode : RegNode :=
  .mk [("a", .mk [] ⟨.roundRobin, 0, [⟨1, .strict⟩, ⟨1, .strict⟩]⟩
    ProcColl.empty 2 3)] ProcColl.empty ProcColl.empty 0 1

/-- **C10.**  Trie removal is keyed only by the connection id and is total
over existing paths: when every segment of the path has an edge,
`remove_subscription` / `remove_registration` return `Ok` with the target
node's id (exact or prefix, as selected by `is_prefix`) and delete every
entry at the target node whose subscriber/registrant id equals the given
connection id — also when there is no such entry; when some segment has no
edge they return `InvalidURI` and leave the trie unchanged.  In particular
both of connection 1's double subscriptions to `a` disappear in one
removal. -/
theorem C10_remove_keyed_by_connection (bits : List String) (snode : SubNode)
    (rnode : RegNode) (connId : ID) (isPfx : Bool) :
    (subPathExists bits snode = true →
      (removeSubscription bits snode connId isPfx).1 =
        .ok (subIdAt bits snode isPfx) ∧
      subEntriesAt bits (removeSubscription bits snode connId isPfx).2 isPfx =
        (subEntriesAt bits snode isPfx).filter
          (fun e => e.subscriber ≠ connId)) ∧
    (subPathExists bits snode = false →
      removeSubscription bits snode connId isPfx =
        (.error ⟨.invalidURI⟩, snode)) ∧
    (regPathExists bits rnode = true →
      (removeRegistration bits rnode connId isPfx).1 =
        .ok (regIdAt bits rnode isPfx) ∧
      regProcsAt bits (removeRegistration bits rnode connId isPfx).2 isPfx =
        (regProcsAt bits rnode isPfx).filter
          (fun e => e.registrant ≠ connId)) ∧
    (regPathExists bits rnode = false →
      removeRegistration bits rnode connId isPfx =
        (.error ⟨.invalidURI⟩, rnode)) ∧
    ((removeSubscription ["a"] dblSubNode 1 false).1 = .ok 2 ∧
     subEntriesAt ["a"] (removeSubscription ["a"] dblSubNode 1 false).2
       false = []) :=
  ⟨(removeSubscription_spec bits snode connId isPfx).1,
   (removeSubscription_spec bits snode connId isPfx).2,
   (removeRegistration_spec bits rnode connId isPfx).1,
   (removeRegistration_spec bits rnode connId isPfx).2,
   by decide, by decide⟩

/-- Witness for C10 at concrete inputs: the existing path `a` (with two
entries of connection 1 at the target) and the missing path `b`. -/
theorem C10_remove_keyed_by_connection_witness :
    ((removeSubscription ["a"] dblSubNode 1 false).1 =
        .ok (subIdAt ["a"] dblSubNode false) ∧
      subEntriesAt ["a"] (removeSubscription ["a"] dblSubNode 1 false).2
        false =
        (subEntriesAt ["a"] dblSubNode false).filter
          (fun e => e.subscriber ≠ 1)) ∧
    removeSubscription ["b"] dblSubNode 1 false =
      (.error ⟨.invalidURI⟩, dblSubNode) ∧
    ((removeRegistration ["a"] dblRegNode 1 false).1 =
        .ok (regIdAt ["a"] dblRegNode false) ∧
      regProcsAt ["a"] (removeRegistration ["a"] dblRegNode 1 false).2
        false =
        (regProcsAt ["a"] dblRegNode false).filter
          (fun e => e.registrant ≠ 1)) ∧
    removeRegistration ["b"] dblRegNode 1 false =
      (.error ⟨.invalidURI⟩, dblRegNode) :=
  ⟨(C10_remove_keyed_by_connection ["a"] dblSubNode dblRegNode 1 false).1
      (by decide),
   (C10_remove_keyed_by_connection ["b"] dblSubNode dblRegNode 1 false).2.1
      (by decide),
   (C10_remove_keyed_by_connection ["a"] dblSubNode dblRegNode 1 false).2.2.1
      (by decide),
   (C10_remove_keyed_by_connection ["b"] dblSubNode dblRegNode 1 false).2.2.2.1
      (by decide)⟩

end Wampire

namespace Wampire

mutual

/-- All subscriber entries stored anywhere in a subscription trie. -/
def allSubEntries : SubNode → List SubEntry
  | .mk edges conns pfxConns _ _ =>
      conns ++ pfxConns ++ allSubEntriesEdges edges

/-- `allSubEntries` over an edge list. -/
def allSubEntriesEdges : List (String × SubNode) → List SubEntry
  | [] => []
  | (_, n) :: tl => allSubEntries n ++ allSubEntriesEdges tl

end

mutual

/-- All registrant entries stored anywhere in a registration trie. -/
def allRegEntries : RegNode → List ProcEntry
  | .mk edges conns pfxConns _ _ =>
      conns.procedures ++ pfxConns.procedures ++ allRegEntriesEdges edges

/-- `allRegEntries` over an edge list. -/
def allRegEntriesEdges : List (String × RegNode) → List ProcEntry
  | [] => []
  | (_, n) :: tl => allRegEntries n ++ allRegEntriesEdges tl

end

theorem allSubEntriesEdges_append (a b : List (String × SubNode)) :
    allSubEntriesEdges (a ++ b) =
      allSubEntriesEdges a ++ allSubEntriesEdges b := by
  induction a with
  | nil => simp [allSubEntriesEdges]
  | cons e tl ih =>
      obtain ⟨k, n⟩ := e
      simp [allSubEntriesEdges, ih]

theorem allRegEntriesEdges_append (a b : List (String × RegNode)) :
    allRegEntriesEdges (a ++ b) =
      allRegEntriesEdges a ++ allRegEntriesEdges b := by
  induction a with
  | nil => simp [allRegEntriesEdges]
  | cons e tl ih =>
      obtain ⟨k, n⟩ := e
      simp [allRegEntriesEdges, ih]

theorem allSubEntriesEdges_set (edges : List (String × SubNode)) (k : String)
    (child n : SubNode) (hlook : lookupEdge edges k = some child)
    (hsame : allSubEntries n = allSubEntries child) :
    allSubEntriesEdges (setEdge edges k n) = allSubEntriesEdges edges := by
  induction edges with
  | nil => rfl
  | cons e tl ih =>
      obtain ⟨k1, v⟩ := e
      by_cases hk : k1 = k
      · simp only [lookupEdge, if_pos hk] at hlook
        obtain rfl := Option.some.inj hlook
        simp [setEdge, hk, allSubEntriesEdges, hsame]
      · simp only [lookupEdge, if_neg hk] at hlook
        simp [setEdge, hk, allSubEntriesEdges, ih hlook]

theorem allRegEntriesEdges_set (edges : List (String × RegNode)) (k : String)
    (child n : RegNode) (hlook : lookupRegEdge edges k = some child)
    (hsame : allRegEntries n = allRegEntries child) :
    allRegEntriesEdges (setRegEdge edges k n) = allRegEntriesEdges edges := by
  induction edges with
  | nil => rfl
  | cons e tl ih =>
      obtain ⟨k1, v⟩ := e
      by_cases hk : k1 = k
      · simp only [lookupRegEdge, if_pos hk] at hlook
        obtain rfl := Option.some.inj hlook
        simp [setRegEdge, hk, allRegEntriesEdges, hsame]
      · simp only [lookupRegEdge, if_neg hk] at hlook
        simp [setRegEdge, hk, allRegEntriesEdges, ih hlook]

theorem addSubscription_empty_bit (bits : List String) (node : SubNode)
    (sub : ID) (pol : MatchingPolicy) (c : Nat) (hmem : "" ∈ bits)
    (hpol : pol ≠ .wildcard) :
    (addSubscription bits node sub pol c).1 = .error ⟨.invalidURI⟩ ∧
    allSubEntries (addSubscription bits node sub pol c).2.1 =
      allSubEntries node := by
  induction bits generalizing node c with
  | nil => simp at hmem
  | cons bit rest ih =>
      obtain ⟨edges, conns, pfxConns, i, p⟩ := node
      by_cases hbit : bit = ""
      · subst hbit
        simp [addSubscription, hpol]
      · have hrest : "" ∈ rest := by
          rcases List.mem_cons.mp hmem with h | h
          · exact absurd h.symm hbit
          · exact h
        have hcond : ¬(bit = "" ∧ pol ≠ .wildcard) := fun hc => hbit hc.1
        cases hedge : lookupEdge edges bit with
        | some child =>
            obtain ⟨h1, h2⟩ := ih child c hrest
            refine ⟨?_, ?_⟩
            · simpa [addSubscription, SubNode.edges, hcond, hedge] using h1
            · simp [addSubscription, SubNode.edges, SubNode.connections,
                SubNode.pfxConnections, hcond, hedge, allSubEntries,
                allSubEntriesEdges_set edges bit child _ hedge h2]
        | none =>
            obtain ⟨h1, h2⟩ := ih (SubNode.new c) (c + 2) hrest
            refine ⟨?_, ?_⟩
            · simpa [addSubscription, SubNode.edges, hcond, hedge] using h1
            · have hempty : allSubEntries
                  (addSubscription rest (SubNode.new c) sub pol (c + 2)).2.1 =
                  [] := by
                simpa [SubNode.new, allSubEntries, allSubEntriesEdges] using h2
              simp [addSubscription, SubNode.edges, SubNode.connections,
                SubNode.pfxConnections, hcond, hedge, allSubEntries,
                allSubEntriesEdges_append, allSubEntriesEdges, hempty]

theorem addRegistration_empty_bit (bits : List String) (node : RegNode)
    (reg : ID) (mpol : MatchingPolicy) (ipol : InvocationPolicy) (c : Nat)
    (hmem : "" ∈ bits) (hpol : mpol ≠ .wildcard) :
    (addRegistration bits node reg mpol ipol c).1 = .error ⟨.invalidURI⟩ ∧
    allRegEntries (addRegistration bits node reg mpol ipol c).2.1 =
      allRegEntries node := by
  induction bits generalizing node c with
  | nil => simp at hmem
  | cons bit rest ih =>
      obtain ⟨edges, conns, pfxConns, i, p⟩ := node
      by_cases hbit : bit = ""
      · subst hbit
        simp [addRegistration, hpol]
      · have hrest : "" ∈ rest := by
          rcases List.mem_cons.mp hmem with h | h
          · exact absurd h.symm hbit
          · exact h
        have hcond : ¬(bit = "" ∧ mpol ≠ .wildcard) := fun hc => hbit hc.1
        cases hedge : lookupRegEdge edges bit with
        | some child =>
            obtain ⟨h1, h2⟩ := ih child c hrest
            refine ⟨?_, ?_⟩
            · simpa [addRegistration, RegNode.edges, hcond, hedge] using h1
            · simp [addRegistration, RegNode.edges, RegNode.connections,
                RegNode.pfxConnections, hcond, hedge, allRegEntries,
                allRegEntriesEdges_set edges bit child _ hedge h2]
        | none =>
            obtain ⟨h1, h2⟩ := ih (RegNode.new c) (c + 2) hrest
            refine ⟨?_, ?_⟩
            · simpa [addRegistration, RegNode.edges, hcond, hedge] using h1
            · have hempty : allRegEntries
                  (addRegistration rest (RegNode.new c) reg mpol ipol
                    (c + 2)).2.1 = [] := by
                simpa [RegNode.new, allRegEntries, allRegEntriesEdges,
                  ProcColl.empty] using h2
              simp [addRegistration, RegNode.edges, RegNode.connections,
                RegNode.pfxConnections, hcond, hedge, allRegEntries,
                allRegEntriesEdges_append, allRegEntriesEdges, hempty]

theorem addSubscription_wildcard_ok (bits : List String) (node : SubNode)
    (sub : ID) (c : Nat) :
    ∃ i, (addSubscription bits node sub .wildcard c).1 = .ok i := by
  induction bits generalizing node c with
  | nil =>
      obtain ⟨edges, conns, pfxConns, i, p⟩ := node
      exact ⟨i, by simp [addSubscription, SubNode.nid]⟩
  | cons bit rest ih =>
      obtain ⟨edges, conns, pfxConns, i, p⟩ := node
      cases hedge : lookupEdge edges bit with
      | some child =>
          obtain ⟨j, hj⟩ := ih child c
          exact ⟨j, by simpa [addSubscription, SubNode.edges, hedge] using hj⟩
      | none =>
          obtain ⟨j, hj⟩ := ih (SubNode.new c) (c + 2)
          exact ⟨j, by simpa [addSubscription, SubNode.edges, hedge] using hj⟩

end Wampire

namespace Wampire

/-- **C9, counterexample.**  A pattern with an empty *first* segment is not
rejected: subscribing resp. registering `.a` under the `Strict` policy
succeeds with the node id instead of failing with `InvalidURI` — the initial
uri bit is consumed by `subscribe_with` / `register_with` before the
empty-segment validation of the recursive insertion runs. -/
theorem C9_counterexample :
    (subscribeWith (SubNode.new 0) ".a" 9 .strict 2).1 = .ok 4 ∧
    (subscribeWith (SubNode.new 0) ".a" 9 .strict 2).1 ≠
      .error ⟨.invalidURI⟩ ∧
    (registerWith (RegNode.new 0) ".a" 9 .strict .single 2).1 = .ok 4 ∧
    (registerWith (RegNode.new 0) ".a" 9 .strict .single 2).1 ≠
      .error ⟨.invalidURI⟩ ∧
    (subscribeWith (SubNode.new 0) "" 9 .strict 2).1 = .ok 2 := by
  refine ⟨by decide, by decide, by decide, by decide, by decide⟩

/-- **C9 (amended).**  Empty uri segments at *non-initial* positions are only
legal in wildcard patterns: whenever the recursive insertion
(`add_subscription` / `add_registration`) meets a bit list containing an
empty segment under a policy other than `Wildcard`, it fails with
`InvalidURI` and adds no subscriber/registrant entry anywhere in the trie
(though edge nodes created on the way down remain); under the `Wildcard`
policy subscription insertion always succeeds; an empty *first* segment is
accepted under any policy, because `subscribe_with` / `register_with` consume
the initial bit without validation. -/
theorem C9_empty_segments_amended (bits : List String) (snode : SubNode)
    (rnode : RegNode) (sub : ID) (pol : MatchingPolicy)
    (ipol : InvocationPolicy) (c : Nat) (hmem : "" ∈ bits)
    (hpol : pol ≠ .wildcard) :
    ((addSubscription bits snode sub pol c).1 = .error ⟨.invalidURI⟩ ∧
     allSubEntries (addSubscription bits snode sub pol c).2.1 =
       allSubEntries snode) ∧
    ((addRegistration bits rnode sub pol ipol c).1 = .error ⟨.invalidURI⟩ ∧
     allRegEntries (addRegistration bits rnode sub pol ipol c).2.1 =
       allRegEntries rnode) ∧
    (∀ bits2 node2 sub2 c2, ∃ i,
      (addSubscription bits2 node2 sub2 .wildcard c2).1 = .ok i) ∧
    (subscribeWith (SubNode.new 0) "com.example..topic" 1 .wildcard 2).1 =
      .ok 8 ∧
    (registerWith (RegNode.new 0) "com.example..topic" 1 .wildcard .single
      2).1 = .ok 8 ∧
    (subscribeWith (SubNode.new 0) ".a" 9 .strict 2).1 = .ok 4 :=
  ⟨addSubscription_empty_bit bits snode sub pol c hmem hpol,
   addRegistration_empty_bit bits rnode sub pol ipol c hmem hpol,
   fun bits2 node2 sub2 c2 => addSubscription_wildcard_ok bits2 node2 sub2 c2,
   by decide, by decide, by decide⟩

/-- Witness for C9 at concrete inputs: the bit list `["x", "", "y"]` (the
tail of pattern `a.x..y` after its initial bit) under the `Strict` policy. -/
theorem C9_empty_segments_amended_witness :
    (addSubscription ["x", "", "y"] (SubNode.new 0) 9 .strict 2).1 =
      .error ⟨.invalidURI⟩ ∧
    allSubEntries
      (addSubscription ["x", "", "y"] (SubNode.new 0) 9 .strict 2).2.1 =
      allSubEntries (SubNode.new 0) :=
  (C9_empty_segments_amended ["x", "", "y"] (SubNode.new 0) (RegNode.new 0)
    9 .strict .single 2 (by decide) (by decide)).1

end Wampire

namespace Wampire

/-- The kwargs dict of the C2 counterexample. -/
def c2Kwargs : Dict := [("k", .integer 1)]

/-- A message whose `args` is absent while `kwargs` is present. -/
def c2Msg : Message := .yield 1 ⟨⟩ none (some c2Kwargs)

/-- **C2, counterexample.**  Round-tripping is *not* the identity on a
message with `args = None` and `kwargs = Some(…)`: the encoder emits the
empty list sentinel in the args position and the decoder reads it back as
`Some([])`, so `decode(encode(m)) ≠ m` for the concrete `Yield` message. -/
theorem C2_counterexample :
    decodeMessage (encodeMessage c2Msg) =
      .ok (.yield 1 ⟨⟩ (some []) (some c2Kwargs)) ∧
    decodeMessage (encodeMessage c2Msg) ≠ .ok c2Msg := by
  constructor
  · rfl
  · intro h
    rw [show decodeMessage (encodeMessage c2Msg) =
      .ok (.yield 1 ⟨⟩ (some []) (some c2Kwargs)) from rfl] at h
    simp [c2Msg] at h

/-- **C2 (amended).**  For every value of the 20-variant message union, one
encode/decode cycle through the shared tagged-array wire form returns the
message with its optional tail normalised: `args = None` next to
`kwargs = Some(…)` comes back as `Some([])` (and a `CustomReason` carrying a
reserved reason uri comes back as the named variant); every other message —
in particular any message whose `args` and `kwargs` are not in that one
corner — round-trips identically.  Decoding an array whose first element is
not one of the 20 known tags fails with the `Unknown message type` codec
error. -/
theorem C2_roundtrip_normalized (m : Message) (t : Nat) (rest : List WireVal)
    (ht : t ∉ knownTags) :
    decodeMessage (encodeMessage m) = .ok (normalizeMessage m) ∧
    decodeMessage (.varr (.vuint t :: rest)) =
      .error "Unknown message type" :=
  ⟨msg_roundtrip_normalized m, unknown_tag_fails t rest ht⟩

/-- Witness for C2 at concrete inputs: a `Subscribed` message and the unknown
tag 99. -/
theorem C2_roundtrip_normalized_witness :
    decodeMessage (encodeMessage (.subscribed 1 2)) =
      .ok (normalizeMessage (.subscribed 1 2)) ∧
    decodeMessage (.varr [.vuint 99]) = .error "Unknown message type" :=
  C2_roundtrip_normalized (.subscribed 1 2) 99 [] (by decide)

end Wampire

namespace Wampire

theorem occEdges_append (a b : List (String × SubNode)) :
    occEdges (a ++ b) = occEdges a ++ occEdges b := by
  induction a with
  | nil => simp [occEdges]
  | cons e tl ih =>
      obtain ⟨k, n⟩ := e
      simp [occEdges, ih]

theorem occEdges_of_lookup (edges : List (String × SubNode)) (k : String)
    (child : SubNode) (hlook : lookupEdge edges k = some child) (x : ID)
    (hx : x ∈ occList child) : x ∈ occEdges edges := by
  induction edges with
  | nil => simp [lookupEdge] at hlook
  | cons e tl ih =>
      obtain ⟨k1, v⟩ := e
      by_cases hk : k1 = k
      · simp only [lookupEdge, if_pos hk] at hlook
        obtain rfl := Option.some.inj hlook
        simp [occEdges, hx]
      · simp only [lookupEdge, if_neg hk] at hlook
        simp [occEdges, ih hlook]

theorem occEdges_set (edges : List (String × SubNode)) (k : String)
    (n : SubNode) (x : ID) (hx : x ∈ occEdges (setEdge edges k n)) :
    x ∈ occEdges edges ∨ x ∈ occList n := by
  induction edges with
  | nil => simp [setEdge, occEdges] at hx
  | cons e tl ih =>
      obtain ⟨k1, v⟩ := e
      by_cases hk : k1 = k
      · simp only [setEdge, if_pos hk, occEdges, List.mem_append] at hx
        rcases hx with hx | hx
        · exact .inr hx
        · exact .inl (by simp [occEdges, hx])
      · simp only [setEdge, if_neg hk, occEdges, List.mem_append] at hx
        rcases hx with hx | hx
        · exact .inl (by simp [occEdges, hx])
        · rcases ih hx with h | h
          · exact .inl (by simp [occEdges, h])
          · exact .inr h

theorem mem_occList_conns {edges : List (String × SubNode)}
    {conns pfxConns : List SubEntry} {i p x : ID}
    (hx : x ∈ (if conns = [] then [] else [i] : List ID)) :
    x ∈ occList (.mk edges conns pfxConns i p) := by
  simp only [occList, List.mem_append]
  exact .inl (.inl hx)

theorem mem_occList_pfx {edges : List (String × SubNode)}
    {conns pfxConns : List SubEntry} {i p x : ID}
    (hx : x ∈ (if pfxConns = [] then [] else [p] : List ID)) :
    x ∈ occList (.mk edges conns pfxConns i p) := by
  simp only [occList, List.mem_append]
  exact .inl (.inr hx)

theorem mem_occList_edges {edges : List (String × SubNode)}
    {conns pfxConns : List SubEntry} {i p x : ID}
    (hx : x ∈ occEdges edges) :
    x ∈ occList (.mk edges conns pfxConns i p) := by
  simp only [occList, List.mem_append]
  exact .inr hx

theorem mem_ite_of_filter {conns : List SubEntry} {f : SubEntry → Bool}
    {i x : ID} (hx : x ∈ (if conns.filter f = [] then [] else [i] : List ID)) :
    x ∈ (if conns = [] then [] else [i] : List ID) := by
  by_cases h : conns.filter f = []
  · simp [h] at hx
  · have hne : conns ≠ [] := by
      rintro rfl
      simp at h
    simp only [if_neg h] at hx
    simpa [hne] using hx

theorem occList_addSubscription (bits : List String) (node : SubNode)
    (sub : ID) (pol : MatchingPolicy) (c : Nat) (x : ID)
    (hx : x ∈ occList (addSubscription bits node sub pol c).2.1) :
    x ∈ occList node ∨ (addSubscription bits node sub pol c).1 = .ok x := by
  induction bits generalizing node c with
  | nil =>
      obtain ⟨edges, conns, pfxConns, i, p⟩ := node
      by_cases hpol : pol = .pfx
      · simp only [addSubscription, if_pos hpol, occList, SubNode.edges,
          SubNode.connections, SubNode.pfxConnections, SubNode.nid,
          SubNode.pfxId, List.append_eq, List.mem_append] at hx
        rcases hx with (hx | hx) | hx
        · exact .inl (mem_occList_conns hx)
        · have : x = p := by
            rcases List.mem_ite_nil_left.mp hx with ⟨_, hmem⟩
            simpa using hmem
          subst this
          exact .inr (by simp [addSubscription, hpol, SubNode.pfxId])
        · exact .inl (mem_occList_edges hx)
      · simp only [addSubscription, if_neg hpol, occList, SubNode.edges,
          SubNode.connections, SubNode.pfxConnections, SubNode.nid,
          SubNode.pfxId, List.append_eq, List.mem_append] at hx
        rcases hx with (hx | hx) | hx
        · have : x = i := by
            rcases List.mem_ite_nil_left.mp hx with ⟨_, hmem⟩
            simpa using hmem
          subst this
          exact .inr (by simp [addSubscription, hpol, SubNode.nid])
        · exact .inl (mem_occList_pfx hx)
        · exact .inl (mem_occList_edges hx)
  | cons bit rest ih =>
      obtain ⟨edges, conns, pfxConns, i, p⟩ := node
      by_cases hcond : bit = "" ∧ pol ≠ .wildcard
      · simp only [addSubscription, if_pos hcond] at hx ⊢
        exact .inl hx
      · cases hedge : lookupEdge edges bit with
        | some child =>
            simp only [addSubscription, if_neg hcond, SubNode.edges,
              hedge] at hx ⊢
            simp only [occList, SubNode.connections, SubNode.pfxConnections,
              SubNode.nid, SubNode.pfxId, List.append_eq, List.mem_append] at hx
            rcases hx with (hx | hx) | hx
            · exact .inl (mem_occList_conns hx)
            · exact .inl (mem_occList_pfx hx)
            · rcases occEdges_set edges bit _ x hx with h | h
              · exact .inl (mem_occList_edges h)
              · rcases ih child c h with h2 | h2
                · exact .inl (mem_occList_edges
                    (occEdges_of_lookup edges bit child hedge x h2))
                · exact .inr h2
        | none =>
            simp only [addSubscription, if_neg hcond, SubNode.edges,
              hedge] at hx ⊢
            simp only [occList, SubNode.connections, SubNode.pfxConnections,
              SubNode.nid, SubNode.pfxId, List.append_eq, List.mem_append, occEdges_append,
              occEdges] at hx
            rcases hx with (hx | hx) | hx | hx
            · exact .inl (mem_occList_conns hx)
            · exact .inl (mem_occList_pfx hx)
            · exact .inl (mem_occList_edges hx)
            · rcases ih (SubNode.new c) (c + 2) (by simpa using hx) with
                h2 | h2
              · simp [SubNode.new, occList, occEdges] at h2
              · exact .inr h2

theorem occList_subscribeWith (node : SubNode) (topic : String) (sub : ID)
    (pol : MatchingPolicy) (c : Nat) (x : ID)
    (hx : x ∈ occList (subscribeWith node topic sub pol c).2.1) :
    x ∈ occList node ∨ (subscribeWith node topic sub pol c).1 = .ok x := by
  obtain ⟨edges, conns, pfxConns, i, p⟩ := node
  cases hbits : splitDots topic with
  | nil =>
      simp only [subscribeWith, hbits] at hx ⊢
      exact .inl hx
  | cons initial rest =>
      cases hedge : lookupEdge edges initial with
      | some child =>
          simp only [subscribeWith, hbits, SubNode.edges, hedge] at hx ⊢
          simp only [occList, SubNode.connections, SubNode.pfxConnections,
            SubNode.nid, SubNode.pfxId, List.append_eq, List.mem_append] at hx
          rcases hx with (hx | hx) | hx
          · exact .inl (mem_occList_conns hx)
          · exact .inl (mem_occList_pfx hx)
          · rcases occEdges_set edges initial _ x hx with h | h
            · exact .inl (mem_occList_edges h)
            · rcases occList_addSubscription rest child sub pol c x h with
                h2 | h2
              · exact .inl (mem_occList_edges
                  (occEdges_of_lookup edges initial child hedge x h2))
              · exact .inr h2
      | none =>
          simp only [subscribeWith, hbits, SubNode.edges, hedge] at hx ⊢
          simp only [occList, SubNode.connections, SubNode.pfxConnections,
            SubNode.nid, SubNode.pfxId, List.append_eq, List.mem_append, occEdges_append,
            occEdges] at hx
          rcases hx with (hx | hx) | hx | hx
          · exact .inl (mem_occList_conns hx)
          · exact .inl (mem_occList_pfx hx)
          · exact .inl (mem_occList_edges hx)
          · rcases occList_addSubscription rest (SubNode.new c) sub pol (c + 2)
                x (by simpa using hx) with h2 | h2
            · simp [SubNode.new, occList, occEdges] at h2
            · exact .inr h2

theorem occList_removeSubscription (bits : List String) (node : SubNode)
    (subId : ID) (isPfx : Bool) (x : ID)
    (hx : x ∈ occList (removeSubscription bits node subId isPfx).2) :
    x ∈ occList node := by
  induction bits generalizing node with
  | nil =>
      obtain ⟨edges, conns, pfxConns, i, p⟩ := node
      cases isPfx
      · replace hx : x ∈ occList (SubNode.mk edges
            (conns.filter fun e => e.subscriber ≠ subId) pfxConns i p) := hx
        simp only [occList, List.mem_append] at hx
        rcases hx with (hx | hx) | hx
        · exact mem_occList_conns (mem_ite_of_filter hx)
        · exact mem_occList_pfx hx
        · exact mem_occList_edges hx
      · replace hx : x ∈ occList (SubNode.mk edges conns
            (pfxConns.filter fun e => e.subscriber ≠ subId) i p) := hx
        simp only [occList, List.mem_append] at hx
        rcases hx with (hx | hx) | hx
        · exact mem_occList_conns hx
        · exact mem_occList_pfx (mem_ite_of_filter hx)
        · exact mem_occList_edges hx
  | cons bit rest ih =>
      obtain ⟨edges, conns, pfxConns, i, p⟩ := node
      cases hedge : lookupEdge edges bit with
      | some child =>
          simp only [removeSubscription, SubNode.edges, hedge] at hx
          simp only [occList, SubNode.connections, SubNode.pfxConnections,
            SubNode.nid, SubNode.pfxId, List.append_eq, List.mem_append] at hx
          rcases hx with (hx | hx) | hx
          · exact mem_occList_conns hx
          · exact mem_occList_pfx hx
          · rcases occEdges_set edges bit _ x hx with h | h
            · exact mem_occList_edges h
            · exact mem_occList_edges
                (occEdges_of_lookup edges bit child hedge x (ih child h))
      | none =>
          simpa only [removeSubscription, SubNode.edges, hedge] using hx

end Wampire

namespace Wampire

/-- The direction of the realm invariant the code actually maintains: every
trie position currently holding at least one subscriber has its id among the
keys of `subscription_ids_to_uris`. -/
def SubMgrInv (mgr : SubMgr) : Prop :=
  ∀ x ∈ occList mgr.subscriptions, ∃ q ∈ mgr.subIdsToUris, q.1 = x

theorem insertAssoc_hasKey_self (m : List (ID × String × Bool)) (k : ID)
    (v : String × Bool) : ∃ q ∈ insertAssoc m k v, q.1 = k := by
  induction m with
  | nil => exact ⟨(k, v), by simp [insertAssoc]⟩
  | cons e tl ih =>
      obtain ⟨k1, v1⟩ := e
      by_cases hk : k1 = k
      · exact ⟨(k1, v), by simp [insertAssoc, hk], hk⟩
      · obtain ⟨q, hq, hq1⟩ := ih
        exact ⟨q, by simp [insertAssoc, hk, hq], hq1⟩

theorem insertAssoc_hasKey_mono (m : List (ID × String × Bool)) (k : ID)
    (v : String × Bool) (x : ID) (h : ∃ q ∈ m, q.1 = x) :
    ∃ q ∈ insertAssoc m k v, q.1 = x := by
  induction m with
  | nil => simp at h
  | cons e tl ih =>
      obtain ⟨k1, v1⟩ := e
      obtain ⟨q, hq, hqx⟩ := h
      by_cases hk : k1 = k
      · rcases List.mem_cons.mp hq with rfl | hq2
        · exact ⟨(k1, v), by simp [insertAssoc, hk], hqx⟩
        · exact ⟨q, by simp [insertAssoc, hk, hq2], hqx⟩
      · rcases List.mem_cons.mp hq with rfl | hq2
        · exact ⟨(k1, v1), by simp [insertAssoc, hk], hqx⟩
        · obtain ⟨q2, hq2b, hq2x⟩ := ih ⟨q, hq2, hqx⟩
          exact ⟨q2, by simp [insertAssoc, hk, hq2b], hq2x⟩

theorem handleSubscribe_subscriptions (mgr : SubMgr) (topics : List ID)
    (connId requestId : ID) (pol : MatchingPolicy) (topic : String)
    (c : Nat) :
    (handleSubscribe mgr topics connId requestId pol topic c).1.subscriptions =
      (subscribeWith mgr.subscriptions topic connId pol c).2.1 := by
  simp only [handleSubscribe]
  split <;> rfl

theorem handleSubscribe_map (mgr : SubMgr) (topics : List ID)
    (connId requestId : ID) (pol : MatchingPolicy) (topic : String)
    (c : Nat) :
    (∃ e, (subscribeWith mgr.subscriptions topic connId pol c).1 = .error e ∧
      (handleSubscribe mgr topics connId requestId pol topic c).1.subIdsToUris =
        mgr.subIdsToUris) ∨
    (∃ tid, (subscribeWith mgr.subscriptions topic connId pol c).1 = .ok tid ∧
      (handleSubscribe mgr topics connId requestId pol topic c).1.subIdsToUris =
        insertAssoc mgr.subIdsToUris tid (topic, pol = .pfx)) := by
  simp only [handleSubscribe]
  split
  · next e heq => exact .inl ⟨e, heq, rfl⟩
  · next tid heq => exact .inr ⟨tid, heq, rfl⟩

theorem handleUnsubscribe_spec (mgr : SubMgr) (topics : List ID)
    (connId requestId topicId : ID) :
    (handleUnsubscribe mgr topics connId requestId topicId).1.subIdsToUris =
      mgr.subIdsToUris ∧
    ∀ x, x ∈ occList
        (handleUnsubscribe mgr topics connId requestId topicId).1.subscriptions →
      x ∈ occList mgr.subscriptions := by
  unfold handleUnsubscribe
  cases hl : lookupAssoc mgr.subIdsToUris topicId with
  | none => exact ⟨rfl, fun x hx => hx⟩
  | some uv =>
      obtain ⟨uri, isPfx⟩ := uv
      dsimp only
      cases hr : (unsubscribeWith mgr.subscriptions uri connId isPfx).1 with
      | error e =>
          exact ⟨rfl, fun x hx =>
            occList_removeSubscription (splitDots uri) mgr.subscriptions
              connId isPfx x hx⟩
      | ok tid =>
          exact ⟨rfl, fun x hx =>
            occList_removeSubscription (splitDots uri) mgr.subscriptions
              connId isPfx x hx⟩

theorem occList_unsubFold (sids : List ID) (m : List (ID × String × Bool))
    (connId : ID) (trie : SubNode) (x : ID)
    (hx : x ∈ occList (sids.foldl (fun t sid =>
      match lookupAssoc m sid with
      | some (uri, isPfx) => (unsubscribeWith t uri connId isPfx).2
      | none => t) trie)) : x ∈ occList trie := by
  induction sids generalizing trie with
  | nil => simpa using hx
  | cons sid rest ih =>
      rw [List.foldl_cons] at hx
      have hx2 := ih _ hx
      cases hstep : lookupAssoc m sid with
      | none => simpa [hstep] using hx2
      | some uv =>
          obtain ⟨uri, isPfx⟩ := uv
          rw [hstep] at hx2
          exact occList_removeSubscription (splitDots uri) trie connId isPfx
            x hx2

/-- The first subscribe of the C5 scenario: connection 1 subscribes strictly
to `a.b` in a fresh realm. -/
def c5Sub := handleSubscribe ⟨SubNode.new 0, []⟩ [] 1 100 .strict "a.b" 2

/-- Connection 1 then unsubscribes the id it was acknowledged (4). -/
def c5Unsub := handleUnsubscribe c5Sub.1 c5Sub.2.1 1 101 4

/-- **C5, counterexample.**  The key set of `subscription_ids_to_uris` does
*not* correspond exactly to the occupied trie positions after
`handle_unsubscribe`: once the only subscriber of `a.b` unsubscribes, the
trie holds no subscriber anywhere, yet the map still contains the stale key 4
— `handle_unsubscribe` (and disconnect cleanup alike) never removes map
entries. -/
theorem C5_counterexample :
    c5Sub.2.2.2.2 = .subscribed 100 4 ∧
    c5Unsub.1.subIdsToUris.map Prod.fst = [4] ∧
    occList c5Unsub.1.subscriptions = [] := by
  refine ⟨rfl, by decide, by decide⟩

/-- **C5 (amended).**  The inclusion the code does maintain: if every
occupied trie position's id is a key of `subscription_ids_to_uris`, this
still holds after `handle_subscribe`, after `handle_unsubscribe`, and after
disconnect cleanup (`ConnectionHandler::remove`).  The converse inclusion is
not maintained (see the counterexample): unsubscribe and disconnect leave
stale ids in the map. -/
theorem C5_occupied_subset_amended (mgr : SubMgr) (topics : List ID)
    (connId requestId topicId : ID) (pol : MatchingPolicy) (topic : String)
    (c : Nat) (hd : ConnHandler) (realm : Realm)
    (hmgr : SubMgrInv mgr) (hrealm : SubMgrInv realm.subscriptionManager) :
    SubMgrInv (handleSubscribe mgr topics connId requestId pol topic c).1 ∧
    SubMgrInv (handleUnsubscribe mgr topics connId requestId topicId).1 ∧
    SubMgrInv (removeHandler hd realm).1.subscriptionManager := by
  refine ⟨?_, ?_, ?_⟩
  · intro x hx
    rw [handleSubscribe_subscriptions] at hx
    rcases occList_subscribeWith mgr.subscriptions topic connId pol c x hx
      with hold | hok
    · rcases handleSubscribe_map mgr topics connId requestId pol topic c
        with ⟨e, _, hmap⟩ | ⟨tid, _, hmap⟩
      · rw [hmap]
        exact hmgr x hold
      · rw [hmap]
        exact insertAssoc_hasKey_mono _ _ _ _ (hmgr x hold)
    · rcases handleSubscribe_map mgr topics connId requestId pol topic c
        with ⟨e, herr, _⟩ | ⟨tid, htid, hmap⟩
      · rw [hok] at herr
        exact absurd herr (by simp)
      · rw [hok] at htid
        obtain rfl := Except.ok.inj htid
        rw [hmap]
        exact insertAssoc_hasKey_self _ _ _
  · intro x hx
    obtain ⟨hmap, hocc⟩ :=
      handleUnsubscribe_spec mgr topics connId requestId topicId
    rw [hmap]
    exact hmgr x (hocc x hx)
  · intro x hx
    simp only [removeHandler] at hx ⊢
    exact hrealm x (occList_unsubFold hd.subscribedTopics
      realm.subscriptionManager.subIdsToUris hd.connId
      realm.subscriptionManager.subscriptions x hx)

/-- Witness for C5 at concrete inputs: the empty manager and the C1 realm
(whose subscription manager is empty), for which the invariant holds
vacuously. -/
theorem C5_occupied_subset_amended_witness :
    SubMgrInv (handleSubscribe ⟨SubNode.new 0, []⟩ [] 1 100 .strict "a.b"
      2).1 ∧
    SubMgrInv (handleUnsubscribe ⟨SubNode.new 0, []⟩ [] 1 101 4).1 ∧
    SubMgrInv (removeHandler ⟨1, [], []⟩ c1Realm).1.subscriptionManager :=
  C5_occupied_subset_amended ⟨SubNode.new 0, []⟩ [] 1 100 4 .strict "a.b" 2
    ⟨1, [], []⟩ c1Realm
    (by intro x hx; simp [occList, SubNode.new, occEdges] at hx)
    (by intro x hx; simp [c1Realm, occList, SubNode.new, occEdges] at hx)

end Wampire
